import Mathlib

/-!
Verification of the caltrain-lite transit pipeline against its
natural-language specification.

The development shallowly embeds the TypeScript sources:

* `worker/src/gtfs-rt.ts` — realtime feed parsing (`parseFeed`) and the
  per-trip merge (`buildRealtimeStatus`);
* `worker/src/index.ts` — the read API request handler (`workerFetch`)
  and the error-redaction logic of the scheduled worker (`redactError`);
* `scripts/parse-gtfs.ts` — the static schedule builder (`parseGtfsZip`);
* `scripts/validate-schedule.ts` — the schedule validator
  (`validateSchedule`).

Library-level concerns (protobuf wire decoding by `pbf`, ZIP and CSV
decoding by `jszip`/`csv-parse`, SHA-256 by `node:crypto`, the JS engine
string/number runtime) are modelled explicitly; each model carries a doc
comment saying what it stands for.  All repository logic is translated
statement by statement from the source files.
-/

namespace CaltrainLite

/-! ## JavaScript runtime models -/

/-- Model of a JavaScript number: an exact rational for the finite case,
plus the three non-finite values.  Floating-point rounding of the host is
not modelled; arithmetic on the `fin` case is exact rational arithmetic. -/
inductive JsNum where
  | fin (q : ℚ)
  | posInf
  | negInf
  | nan
deriving DecidableEq, Repr

/-- JS truthiness of a number: `0` and `NaN` are falsy, infinities are
truthy. -/
def JsNum.truthy : JsNum → Bool
  | .fin q => q ≠ 0
  | .posInf => true
  | .negInf => true
  | .nan => false

/-- Model of `Number.isFinite`. -/
def JsNum.isFinite : JsNum → Bool
  | .fin _ => true
  | _ => false

/-- Multiplication by a positive natural constant (the only multiplications
the sources perform are by `100000` and `100`). -/
def JsNum.mulPos (x : JsNum) (k : ℕ) : JsNum :=
  match x with
  | .fin q => .fin (q * k)
  | .posInf => .posInf
  | .negInf => .negInf
  | .nan => .nan

/-- Model of `Math.round`: round half up, i.e. `⌊x + 1/2⌋`, which rounds
ties toward positive infinity (ECMA-262 semantics).  Non-finite inputs are
returned unchanged. -/
def JsNum.mathRound : JsNum → JsNum
  | .fin q => .fin ((⌊q + 1/2⌋ : ℤ) : ℚ)
  | x => x

/-- Division by a positive natural constant. -/
def JsNum.divPos (x : JsNum) (k : ℕ) : JsNum :=
  match x with
  | .fin q => .fin (q / k)
  | .posInf => .posInf
  | .negInf => .negInf
  | .nan => .nan

/-- JS objects with string keys and JS `Map`s preserve insertion order and
replace values in place on re-assignment; both are modelled as association
lists with exactly that update rule.  (The JS reordering of integer-like
object keys is not modelled; no claim below depends on enumeration
order.) -/
def recordGet {α : Type} (m : List (String × α)) (k : String) : Option α :=
  (m.find? (fun p => p.1 == k)).map (·.2)

/-- Set a key: replace in place when present, append when absent. -/
def recordSet {α : Type} (m : List (String × α)) (k : String) (v : α) :
    List (String × α) :=
  if m.any (fun p => p.1 == k) then
    m.map (fun p => match p.1 == k with | true => (k, v) | false => p)
  else
    m ++ [(k, v)]

/-! ## Decoded GTFS-RT object graph

The protobuf decoder generated by `pbf` (`gtfs-realtime.js`, generated from
the public GTFS-RT schema) produces a message graph in which every absent
optional scalar carries its protobuf default (`0` for numbers, `""` for
strings) and absent sub-messages are `undefined`.  The structures below are
that decoded graph; `Option` marks sub-messages, and scalar fields are
total with the default filled in. -/

structure TripDescriptor where
  trip_id : String
deriving DecidableEq, Repr

structure StopTimeEvent where
  delay : Int
  time : Int
deriving DecidableEq, Repr

structure StopTimeUpdate where
  stop_id : String
  departure : Option StopTimeEvent
  arrival : Option StopTimeEvent
deriving DecidableEq, Repr

structure TripUpdate where
  trip : Option TripDescriptor
  delay : Int
  stop_time_update : List StopTimeUpdate
deriving DecidableEq, Repr

structure RtPosition where
  latitude : JsNum
  longitude : JsNum
  bearing : JsNum
  speed : JsNum
deriving DecidableEq, Repr

structure VehicleEntity where
  trip : Option TripDescriptor
  position : Option RtPosition
deriving DecidableEq, Repr

structure RtTranslation where
  text : String
  language : String
deriving DecidableEq, Repr

structure TranslatedString where
  translation : Option (List RtTranslation)
deriving DecidableEq, Repr

structure InformedEntity where
  stop_id : String
  trip : Option TripDescriptor
deriving DecidableEq, Repr

structure TimeRange where
  start : Int
  finish : Int
deriving DecidableEq, Repr

structure RtAlert where
  cause : Int
  effect : Int
  header_text : Option TranslatedString
  description_text : Option TranslatedString
  informed_entity : Option (List InformedEntity)
  active_period : List TimeRange
deriving DecidableEq, Repr

structure FeedHeader where
  timestamp : Int
deriving DecidableEq, Repr

structure FeedEntity where
  trip_update : Option TripUpdate
  vehicle : Option VehicleEntity
  alert : Option RtAlert
deriving DecidableEq, Repr

structure FeedMessage where
  header : Option FeedHeader
  entity : List FeedEntity
deriving DecidableEq, Repr

/-! ## Output shapes (`packages/types/schema`) -/

structure VehiclePosition where
  la : JsNum
  lo : JsNum
  b : Option JsNum := none
  sp : Option JsNum := none
deriving DecidableEq, Repr

structure ServiceAlert where
  h : String
  d : String
  c : Option String := none
  e : Option String := none
  s : Option (List String) := none
  tr : Option (List String) := none
  st : Option Int := none
  en : Option Int := none
deriving DecidableEq, Repr

/-- Entity emitted for one trip update by `parseFeed` (`ParsedTripEntity`
in the source: a `RealtimeTripStatus` plus the trip id `i`). -/
structure ParsedTripEntity where
  i : String
  d : Option Int := none
  t : Option Int := none
  s : Option String := none
  st : Option Int := none
deriving DecidableEq, Repr

structure ParsedFeed where
  t : Int
  e : List ParsedTripEntity
  p : List (String × VehiclePosition)
  a : List ServiceAlert
deriving DecidableEq, Repr

structure RealtimeTripStatus where
  d : Option Int := none
  t : Option Int := none
  s : Option String := none
  st : Option Int := none
  p : Option VehiclePosition := none
deriving DecidableEq, Repr

structure RealtimeStatus where
  t : Int
  byTrip : List (String × RealtimeTripStatus)
  a : List ServiceAlert
deriving DecidableEq, Repr

/-! ## `worker/src/gtfs-rt.ts` — `parseFeed` -/

/-- Source: `extractTranslation` — first translation with
`language === "en"`, else the empty string. -/
def extractText (txt : Option TranslatedString) : String :=
  match txt with
  | none => ""
  | some ts =>
    match ts.translation with
    | none => ""
    | some l =>
      match l.find? (fun t => t.language == "en") with
      | some t => t.text
      | none => ""

/-- Source: `const event = update.departure || update.arrival;`. -/
def eventOf (u : StopTimeUpdate) : Option StopTimeEvent :=
  match u.departure with
  | some ev => some ev
  | none => u.arrival

/-- Source: the first loop over `stop_time_update` — the first update that
carries a (non-empty) `stop_id` sets the stop context. -/
def firstStopCtx (updates : List StopTimeUpdate) : String :=
  match updates.find? (fun u => u.stop_id ≠ "") with
  | some u => u.stop_id
  | none => ""

/-- Source: the second loop over `stop_time_update` in `parseFeed`.  State
is `(delay, time, stopId)`; the loop breaks once both `delay` and `time`
are non-zero.  Translated statement by statement from the body. -/
def tuScan : List StopTimeUpdate → Int → Int → String → Int × Int × String
  | [], delay, time, stopId => (delay, time, stopId)
  | u :: rest, delay, time, stopId =>
    match eventOf u with
    | none => tuScan rest delay time stopId
    | some ev =>
      let delay1 := if ev.delay ≠ 0 ∧ delay = 0 then ev.delay else delay
      let stopId1 := if ev.delay ≠ 0 ∧ delay = 0 ∧ u.stop_id ≠ "" then u.stop_id else stopId
      let time1 := if ev.time ≠ 0 ∧ time = 0 then ev.time else time
      let stopId2 := if ev.time ≠ 0 ∧ time = 0 ∧ u.stop_id ≠ "" then u.stop_id else stopId1
      if delay1 ≠ 0 ∧ time1 ≠ 0 then (delay1, time1, stopId2)
      else tuScan rest delay1 time1 stopId2

/-- Source: the trip-update branch of `parseFeed` (one entity).  Returns
`none` when the entity has no (non-empty) trip id. -/
def parseTripUpdate (tu : TripUpdate) : Option ParsedTripEntity :=
  match tu.trip with
  | none => none
  | some td =>
    if td.trip_id = "" then none
    else
      let scan := tuScan tu.stop_time_update 0 0 (firstStopCtx tu.stop_time_update)
      let delay0 := scan.1
      let time := scan.2.1
      let stopId := scan.2.2
      let delay := if delay0 = 0 ∧ tu.delay ≠ 0 then tu.delay else delay0
      some { i := td.trip_id
             st := some 2
             d := if delay ≠ 0 then some delay else none
             t := if time ≠ 0 then some time else none
             s := if stopId ≠ "" then some stopId else none }

/-- Source: the vehicle-position branch of `parseFeed` (one entity):
quantize lat/lon via `Math.round(x * 100000) / 100000`, keep only finite
results, include bearing and speed only when truthy. -/
def parseVehicle (v : VehicleEntity) : Option (String × VehiclePosition) :=
  match v.trip with
  | none => none
  | some td =>
    if td.trip_id = "" then none
    else
      match v.position with
      | none => none
      | some pos =>
        let la := ((pos.latitude.mulPos 100000).mathRound).divPos 100000
        let lo := ((pos.longitude.mulPos 100000).mathRound).divPos 100000
        if la.isFinite ∧ lo.isFinite then
          some (td.trip_id,
            { la := la
              lo := lo
              b := if pos.bearing.truthy then some pos.bearing else none
              sp := if pos.speed.truthy then some pos.speed else none })
        else none

/-- Model of JS `String(n)` on an integer-valued number. -/
def jsIntString (n : Int) : String := toString n

/-- Source: the alert branch of `parseFeed` (one entity). -/
def parseAlert (a : RtAlert) : ServiceAlert :=
  let stopsTrips : Option (List String) × Option (List String) :=
    match a.informed_entity with
    | none => (none, none)
    | some ies =>
      (some ((ies.filter (fun ie => ie.stop_id ≠ "")).map (·.stop_id)),
       some (ies.filterMap (fun ie =>
         match ie.trip with
         | some td => if td.trip_id ≠ "" then some td.trip_id else none
         | none => none)))
  { h := extractText a.header_text
    d := extractText a.description_text
    c := if a.cause ≠ 0 then some (jsIntString a.cause) else none
    e := if a.effect ≠ 0 then some (jsIntString a.effect) else none
    s := stopsTrips.1
    tr := stopsTrips.2
    st := match a.active_period.head? with
          | some r => if r.start ≠ 0 then some r.start else none
          | none => none
    en := match a.active_period.head? with
          | some r => if r.finish ≠ 0 then some r.finish else none
          | none => none }

/-- One iteration of the entity loop of `parseFeed`: the three `if`
branches run in order on the accumulated `ParsedFeed`. -/
def parseFeedStep (acc : ParsedFeed) (ent : FeedEntity) : ParsedFeed :=
  let acc1 :=
    match ent.trip_update with
    | some tu =>
      match parseTripUpdate tu with
      | some pe => { acc with e := acc.e ++ [pe] }
      | none => acc
    | none => acc
  let acc2 :=
    match ent.vehicle with
    | some v =>
      match parseVehicle v with
      | some kv => { acc1 with p := recordSet acc1.p kv.1 kv.2 }
      | none => acc1
    | none => acc1
  match ent.alert with
  | some al => { acc2 with a := acc2.a ++ [parseAlert al] }
  | none => acc2

/-- Source: `parseFeed` — decode-side timestamp default plus the entity
loop. -/
def parseFeed (feed : FeedMessage) : ParsedFeed :=
  let timestamp : Int :=
    match feed.header with
    | some h => h.timestamp
    | none => 0
  feed.entity.foldl parseFeedStep { t := timestamp, e := [], p := [], a := [] }

/-! ## Association-list lemmas -/

theorem find?_setmap_self {α : Type} (m : List (String × α)) (k : String) (v : α)
    (h : m.any (fun p => p.1 == k) = true) :
    (m.map (fun p => match p.1 == k with | true => (k, v) | false => p)).find?
      (fun p => p.1 == k) = some (k, v) := by
  induction m with
  | nil => simp at h
  | cons p rest ih =>
    rw [List.map_cons, List.find?_cons]
    by_cases hp : (p.1 == k) = true
    · simp only [hp]
      simp
    · have hpf : (p.1 == k) = false := by simpa using hp
      have h2 : rest.any (fun p => p.1 == k) = true := by
        simp only [List.any_cons, Bool.or_eq_true] at h
        rcases h with h1 | h2
        · exact absurd h1 hp
        · exact h2
      simp only [hpf]
      exact ih h2

theorem find?_setmap_ne {α : Type} (m : List (String × α)) (k k' : String) (v : α)
    (h : (k' == k) = false) :
    (m.map (fun p => match p.1 == k with | true => (k, v) | false => p)).find?
      (fun p => p.1 == k') = m.find? (fun p => p.1 == k') := by
  have hne : k' ≠ k := by simpa using h
  induction m with
  | nil => rfl
  | cons p rest ih =>
    rw [List.map_cons, List.find?_cons, List.find?_cons]
    by_cases hpk : (p.1 == k) = true
    · have hp1 : p.1 = k := by simpa using hpk
      have hpk' : (p.1 == k') = false := by
        rw [hp1]
        simpa using fun hc => hne hc.symm
      have hkk' : ((k : String) == k') = false := by
        simpa using fun hc => hne hc.symm
      simp only [hpk, hkk', hpk']
      exact ih
    · have hpkf : (p.1 == k) = false := by simpa using hpk
      simp only [hpkf]
      by_cases hpk' : (p.1 == k') = true
      · simp only [hpk']
      · have hpf2 : (p.1 == k') = false := by simpa using hpk'
        simp only [hpf2]
        exact ih

theorem recordGet_recordSet_self {α : Type} (m : List (String × α)) (k : String) (v : α) :
    recordGet (recordSet m k v) k = some v := by
  unfold recordGet recordSet
  by_cases h : m.any (fun p => p.1 == k) = true
  · rw [if_pos h, find?_setmap_self m k v h]
    rfl
  · rw [if_neg h]
    have hnone : m.find? (fun p => p.1 == k) = none := by
      rw [List.find?_eq_none]
      intro p hp hcontra
      exact h (List.any_eq_true.mpr ⟨p, hp, hcontra⟩)
    rw [List.find?_append, hnone, List.find?_cons]
    simp

theorem recordGet_recordSet_ne {α : Type} (m : List (String × α)) (k k' : String) (v : α)
    (h : k' ≠ k) :
    recordGet (recordSet m k v) k' = recordGet m k' := by
  have hb : (k' == k) = false := by simpa using h
  unfold recordGet recordSet
  by_cases hany : m.any (fun p => p.1 == k) = true
  · rw [if_pos hany, find?_setmap_ne m k k' v hb]
  · rw [if_neg hany, List.find?_append]
    have hkk' : ((k : String) == k') = false := by
      simpa using fun hc => h hc.symm
    have hlast : (List.find? (fun p => p.1 == k') [(k, v)]) = none := by
      rw [List.find?_cons]
      simp [hkk']
    rw [hlast]
    cases hm : m.find? (fun p => p.1 == k') with
    | some p => rfl
    | none => rfl

theorem recordGet_mem {α : Type} {m : List (String × α)} {k : String} {v : α}
    (h : recordGet m k = some v) : (k, v) ∈ m := by
  unfold recordGet at h
  cases hf : m.find? (fun p => p.1 == k) with
  | none => rw [hf] at h; simp at h
  | some p =>
    rw [hf] at h
    have hmem := List.mem_of_find?_eq_some hf
    have hpred := List.find?_some hf
    have hk : p.1 = k := by simpa using hpred
    have hv : p.2 = v := by simpa using h
    have : p = (k, v) := by
      cases p
      simp_all
    rw [this] at hmem
    exact hmem

/-! ## `worker/src/gtfs-rt.ts` — `buildRealtimeStatus` -/

/-- Body of the `buildRealtimeStatus` loop: the `trip` record built for one
parsed entity (fields copied when present, position attached when the
vehicle feed has one for this trip id). -/
def byTripRecord (vehiclePositions : ParsedFeed) (ent : ParsedTripEntity) :
    RealtimeTripStatus :=
  { d := ent.d
    t := ent.t
    s := match ent.s with
         | some str => if str ≠ "" then some str else none
         | none => none
    st := ent.st
    p := recordGet vehiclePositions.p ent.i }

/-- Source: `buildRealtimeStatus` — one `byTrip` record per trip-update
entity, with the vehicle position for the same trip id attached when one
exists. -/
def buildRealtimeStatus (tripUpdates vehiclePositions serviceAlerts : ParsedFeed) :
    RealtimeStatus :=
  { t := max tripUpdates.t (max vehiclePositions.t serviceAlerts.t)
    byTrip := tripUpdates.e.foldl
      (fun m ent => recordSet m ent.i (byTripRecord vehiclePositions ent)) []
    a := serviceAlerts.a }


/-! ## Spec-side characterizations of the trip-update scan (claim C1) -/

/-- Claim-side delay selection: the first non-zero `delay` over the
stop-time updates, taking each update's departure event, else its arrival
event. -/
def firstNonzeroDelay : List StopTimeUpdate → Option Int
  | [] => none
  | u :: rest =>
    match eventOf u with
    | some ev => if ev.delay ≠ 0 then some ev.delay else firstNonzeroDelay rest
    | none => firstNonzeroDelay rest

/-- Claim-side predicted-time selection: the first non-zero `time`, same
scan. -/
def firstNonzeroTime : List StopTimeUpdate → Option Int
  | [] => none
  | u :: rest =>
    match eventOf u with
    | some ev => if ev.time ≠ 0 then some ev.time else firstNonzeroTime rest
    | none => firstNonzeroTime rest

/-- Whether an update carries a non-zero delay on its selected event. -/
def isDelayHit (u : StopTimeUpdate) : Bool :=
  match eventOf u with
  | some ev => ev.delay ≠ 0
  | none => false

/-- Whether an update carries a non-zero predicted time on its selected
event. -/
def isTimeHit (u : StopTimeUpdate) : Bool :=
  match eventOf u with
  | some ev => ev.time ≠ 0
  | none => false

/-- Scan position and content of the first update satisfying a predicate. -/
def firstHitIdx (p : StopTimeUpdate → Bool) : List StopTimeUpdate → Option (ℕ × StopTimeUpdate)
  | [] => none
  | u :: rest =>
    if p u then some (0, u)
    else (firstHitIdx p rest).map (fun x => (x.1 + 1, x.2))

/-- An update's stop id overrides a base stop id only when it actually
carries one. -/
def stopOverride (base : String) (u : StopTimeUpdate) : String :=
  if u.stop_id ≠ "" then u.stop_id else base

/-- Claim-side stop id produced by the scan: the first-stop context,
overridden by the first delay-bearing update and by the first
time-bearing update, the later of the two in scan order winning. -/
def specScanStop (l : List StopTimeUpdate) (base : String) : String :=
  match firstHitIdx isDelayHit l, firstHitIdx isTimeHit l with
  | none, none => base
  | some x, none => stopOverride base x.2
  | none, some y => stopOverride base y.2
  | some x, some y =>
    if x.1 ≤ y.1 then stopOverride (stopOverride base x.2) y.2
    else stopOverride (stopOverride base y.2) x.2

/-- Claim-side `d` field of the emitted record: stop-level first non-zero
delay, else the trip-level delay, with zero meaning absent. -/
def specDelayField (tu : TripUpdate) : Option Int :=
  match firstNonzeroDelay tu.stop_time_update with
  | some d => some d
  | none => if tu.delay ≠ 0 then some tu.delay else none

/-- Claim-side `t` field of the emitted record. -/
def specTimeField (tu : TripUpdate) : Option Int :=
  firstNonzeroTime tu.stop_time_update

/-- Claim-side `s` field of the emitted record. -/
def specStopField (tu : TripUpdate) : Option String :=
  let final := specScanStop tu.stop_time_update (firstStopCtx tu.stop_time_update)
  if final ≠ "" then some final else none

theorem firstNonzeroDelay_ne_zero {l : List StopTimeUpdate} {d : Int}
    (h : firstNonzeroDelay l = some d) : d ≠ 0 := by
  induction l with
  | nil => simp [firstNonzeroDelay] at h
  | cons u rest ih =>
    unfold firstNonzeroDelay at h
    cases hev : eventOf u with
    | none => simp only [hev] at h; exact ih h
    | some ev =>
      simp only [hev] at h
      by_cases hd : ev.delay ≠ 0
      · rw [if_pos hd] at h
        cases h
        exact hd
      · rw [if_neg hd] at h
        exact ih h

theorem firstNonzeroTime_ne_zero {l : List StopTimeUpdate} {t : Int}
    (h : firstNonzeroTime l = some t) : t ≠ 0 := by
  induction l with
  | nil => simp [firstNonzeroTime] at h
  | cons u rest ih =>
    unfold firstNonzeroTime at h
    cases hev : eventOf u with
    | none => simp only [hev] at h; exact ih h
    | some ev =>
      simp only [hev] at h
      by_cases ht : ev.time ≠ 0
      · rw [if_pos ht] at h
        cases h
        exact ht
      · rw [if_neg ht] at h
        exact ih h

theorem tuScan_delay_stable (l : List StopTimeUpdate) (d t : Int) (sid : String)
    (hd : d ≠ 0) : (tuScan l d t sid).1 = d := by
  induction l generalizing t sid with
  | nil => rfl
  | cons u rest ih =>
    unfold tuScan
    cases hev : eventOf u with
    | none => exact ih t sid
    | some ev =>
      simp only [if_neg (by simp [hd] : ¬ (ev.delay ≠ 0 ∧ d = 0))]
      by_cases hbr : d ≠ 0 ∧ (if ev.time ≠ 0 ∧ t = 0 then ev.time else t) ≠ 0
      · rw [if_pos hbr]
      · rw [if_neg hbr]
        exact ih _ _

theorem tuScan_time_stable (l : List StopTimeUpdate) (d t : Int) (sid : String)
    (ht : t ≠ 0) : (tuScan l d t sid).2.1 = t := by
  induction l generalizing d sid with
  | nil => rfl
  | cons u rest ih =>
    unfold tuScan
    cases hev : eventOf u with
    | none => exact ih d sid
    | some ev =>
      simp only [if_neg (by simp [ht] : ¬ (ev.time ≠ 0 ∧ t = 0))]
      by_cases hbr : (if ev.delay ≠ 0 ∧ d = 0 then ev.delay else d) ≠ 0 ∧ t ≠ 0
      · rw [if_pos hbr]
      · rw [if_neg hbr]
        exact ih _ _

theorem tuScan_delay_eq (l : List StopTimeUpdate) (t : Int) (sid : String) :
    (tuScan l 0 t sid).1 = (firstNonzeroDelay l).getD 0 := by
  induction l generalizing t sid with
  | nil => rfl
  | cons u rest ih =>
    unfold tuScan firstNonzeroDelay
    cases hev : eventOf u with
    | none => exact ih t sid
    | some ev =>
      by_cases hd : ev.delay = 0
      · simp only [hd, ne_eq, not_true_eq_false, false_and, if_false, ite_false]
        exact ih _ _
      · simp only [ne_eq, hd, not_false_eq_true, and_true, true_and, if_true, ite_true]
        split_ifs <;>
          first
          | (simp; done)
          | (rw [tuScan_delay_stable _ _ _ _ hd]; simp)

theorem tuScan_time_eq (l : List StopTimeUpdate) (d : Int) (sid : String) :
    (tuScan l d 0 sid).2.1 = (firstNonzeroTime l).getD 0 := by
  induction l generalizing d sid with
  | nil => rfl
  | cons u rest ih =>
    unfold tuScan firstNonzeroTime
    cases hev : eventOf u with
    | none => exact ih d sid
    | some ev =>
      by_cases ht : ev.time = 0
      · simp only [ht, ne_eq, not_true_eq_false, false_and, and_false, if_false, ite_false]
        exact ih _ _
      · simp only [ne_eq, ht, not_false_eq_true, and_true, true_and, if_true, ite_true]
        split_ifs <;>
          first
          | (simp; done)
          | (rw [tuScan_time_stable _ _ _ _ ht]; simp)

theorem firstHitIdx_cons (p : StopTimeUpdate → Bool) (u : StopTimeUpdate)
    (rest : List StopTimeUpdate) :
    firstHitIdx p (u :: rest) =
      if p u then some (0, u) else (firstHitIdx p rest).map (fun x => (x.1 + 1, x.2)) := rfl

theorem tuScan_stop_dactive (l : List StopTimeUpdate) (t : Int) (sid : String)
    (ht : t ≠ 0) :
    (tuScan l 0 t sid).2.2 =
      match firstHitIdx isDelayHit l with
      | some x => stopOverride sid x.2
      | none => sid := by
  induction l generalizing sid with
  | nil => rfl
  | cons u rest ih =>
    unfold tuScan
    rw [firstHitIdx_cons]
    cases hev : eventOf u with
    | none =>
      have hdh : ¬ isDelayHit u = true := by simp [isDelayHit, hev]
      rw [if_neg hdh, ih sid]
      cases firstHitIdx isDelayHit rest <;> simp
    | some ev =>
      by_cases hd : ev.delay = 0
      · have hdh : ¬ isDelayHit u = true := by simp [isDelayHit, hev, hd]
        rw [if_neg hdh]
        simp only [hd, ne_eq, not_true_eq_false, false_and, and_false, if_false,
          ite_false, ht]
        rw [ih sid]
        cases firstHitIdx isDelayHit rest <;> simp
      · have hdh : isDelayHit u = true := by simp [isDelayHit, hev, hd]
        rw [if_pos hdh]
        simp only [hd, ht, ne_eq, not_false_eq_true, and_true, true_and, and_false,
          false_and, if_true, ite_true, if_false, ite_false, not_true_eq_false]
        simp [stopOverride]

theorem tuScan_stop_tactive (l : List StopTimeUpdate) (d : Int) (sid : String)
    (hd : d ≠ 0) :
    (tuScan l d 0 sid).2.2 =
      match firstHitIdx isTimeHit l with
      | some y => stopOverride sid y.2
      | none => sid := by
  induction l generalizing sid with
  | nil => rfl
  | cons u rest ih =>
    unfold tuScan
    rw [firstHitIdx_cons]
    cases hev : eventOf u with
    | none =>
      have hth : ¬ isTimeHit u = true := by simp [isTimeHit, hev]
      rw [if_neg hth, ih sid]
      cases firstHitIdx isTimeHit rest <;> simp
    | some ev =>
      by_cases ht : ev.time = 0
      · have hth : ¬ isTimeHit u = true := by simp [isTimeHit, hev, ht]
        rw [if_neg hth]
        simp only [ht, ne_eq, not_true_eq_false, false_and, and_false, if_false,
          ite_false, hd]
        rw [ih sid]
        cases firstHitIdx isTimeHit rest <;> simp
      · have hth : isTimeHit u = true := by simp [isTimeHit, hev, ht]
        rw [if_pos hth]
        simp only [hd, ht, ne_eq, not_false_eq_true, and_true, true_and, and_false,
          false_and, if_true, ite_true, if_false, ite_false, not_true_eq_false]
        simp [stopOverride]

theorem specScanStop_cons_skip (u : StopTimeUpdate) (rest : List StopTimeUpdate)
    (sid : String) (hd : ¬ isDelayHit u = true) (ht : ¬ isTimeHit u = true) :
    specScanStop (u :: rest) sid = specScanStop rest sid := by
  unfold specScanStop
  rw [firstHitIdx_cons, firstHitIdx_cons, if_neg hd, if_neg ht]
  cases firstHitIdx isDelayHit rest <;> cases firstHitIdx isTimeHit rest <;> simp

theorem tuScan_stop_main (l : List StopTimeUpdate) (sid : String) :
    (tuScan l 0 0 sid).2.2 = specScanStop l sid := by
  induction l generalizing sid with
  | nil => rfl
  | cons u rest ih =>
    cases hev : eventOf u with
    | none =>
      have hdh : ¬ isDelayHit u = true := by simp [isDelayHit, hev]
      have hth : ¬ isTimeHit u = true := by simp [isTimeHit, hev]
      rw [specScanStop_cons_skip u rest sid hdh hth]
      unfold tuScan
      rw [hev]
      exact ih sid
    | some ev =>
      by_cases hd : ev.delay = 0 <;> by_cases ht : ev.time = 0
      · -- neither a delay nor a time hit: state unchanged
        have hdh : ¬ isDelayHit u = true := by simp [isDelayHit, hev, hd]
        have hth : ¬ isTimeHit u = true := by simp [isTimeHit, hev, ht]
        rw [specScanStop_cons_skip u rest sid hdh hth]
        unfold tuScan
        rw [hev]
        simp only [hd, ht, ne_eq, not_true_eq_false, false_and, if_false, ite_false]
        exact ih sid
      · -- time hit only
        have hdh : ¬ isDelayHit u = true := by simp [isDelayHit, hev, hd]
        have hth : isTimeHit u = true := by simp [isTimeHit, hev, ht]
        unfold tuScan
        rw [hev]
        simp only [hd, ht, ne_eq, not_true_eq_false, false_and, not_false_eq_true,
          and_true, true_and, if_false, ite_false, if_true, ite_true]
        rw [tuScan_stop_dactive rest ev.time _ ht]
        unfold specScanStop
        rw [firstHitIdx_cons, firstHitIdx_cons, if_neg hdh, if_pos hth]
        cases firstHitIdx isDelayHit rest <;> simp [stopOverride]
      · -- delay hit only
        have hdh : isDelayHit u = true := by simp [isDelayHit, hev, hd]
        have hth : ¬ isTimeHit u = true := by simp [isTimeHit, hev, ht]
        unfold tuScan
        rw [hev]
        simp only [hd, ht, ne_eq, not_true_eq_false, false_and, not_false_eq_true,
          and_true, true_and, if_false, ite_false, if_true, ite_true, and_false]
        rw [tuScan_stop_tactive rest ev.delay _ hd]
        unfold specScanStop
        rw [firstHitIdx_cons, firstHitIdx_cons, if_pos hdh, if_neg hth]
        cases firstHitIdx isTimeHit rest <;> simp [stopOverride]
      · -- both hit on this update: the loop breaks here
        have hdh : isDelayHit u = true := by simp [isDelayHit, hev, hd]
        have hth : isTimeHit u = true := by simp [isTimeHit, hev, ht]
        unfold tuScan
        rw [hev]
        simp only [hd, ht, ne_eq, not_false_eq_true, and_true, true_and, if_true, ite_true]
        unfold specScanStop
        rw [firstHitIdx_cons, firstHitIdx_cons, if_pos hdh, if_pos hth]
        simp [stopOverride]

/-! ## Characterization of `parseFeed`'s entity list -/

theorem parseFeedStep_e (acc : ParsedFeed) (ent : FeedEntity) :
    (parseFeedStep acc ent).e = acc.e ++
      (match ent.trip_update with
       | some tu => (parseTripUpdate tu).toList
       | none => []) := by
  unfold parseFeedStep
  cases ent.trip_update <;> cases ent.vehicle <;> cases ent.alert <;>
    (repeat' split) <;>
    first
    | rfl
    | simp_all

theorem parseFeed_e_aux (l : List FeedEntity) (acc : ParsedFeed) :
    (l.foldl parseFeedStep acc).e =
      acc.e ++ l.filterMap (fun en => en.trip_update.bind parseTripUpdate) := by
  induction l generalizing acc with
  | nil => simp
  | cons en rest ih =>
    rw [List.foldl_cons, ih, parseFeedStep_e, List.filterMap_cons, List.append_assoc]
    cases htu : en.trip_update with
    | none => simp
    | some tu => cases hpe : parseTripUpdate tu <;> simp [hpe]

/-! ## Claim C1 — realtime delay selection (corrected) -/

/-- C1 (amended): for every decoded trip-update entity with a non-empty trip
id, the emitted record's delay is the first non-zero delay found by scanning
the stop-time updates in order (departure event, else arrival event), with
the trip-level delay as fallback and zero treated as absent; the record's
stop id is the first-stop context, overridden by the stop id of the
delay-bearing update, but also overridden by the stop id of the first
non-zero-predicted-time-bearing update — when both exist, whichever occurs
later in the scan wins.  The first conjunct ties `parseFeed`'s entity list
to the per-entity function. -/
theorem c1_delay_selection :
    (∀ feed : FeedMessage, (parseFeed feed).e =
      feed.entity.filterMap (fun en => en.trip_update.bind parseTripUpdate)) ∧
    (∀ (tu : TripUpdate) (td : TripDescriptor), tu.trip = some td → td.trip_id ≠ "" →
      parseTripUpdate tu = some
        { i := td.trip_id, st := some 2, d := specDelayField tu,
          t := specTimeField tu, s := specStopField tu }) := by
  constructor
  · intro feed
    unfold parseFeed
    rw [parseFeed_e_aux]
    rfl
  · intro tu td h hne
    unfold parseTripUpdate
    rw [h]
    simp only [if_neg hne]
    have hdl := tuScan_delay_eq tu.stop_time_update 0 (firstStopCtx tu.stop_time_update)
    have htm := tuScan_time_eq tu.stop_time_update 0 (firstStopCtx tu.stop_time_update)
    have hst := tuScan_stop_main tu.stop_time_update (firstStopCtx tu.stop_time_update)
    rw [hdl, htm, hst]
    have hd_eq : (if (firstNonzeroDelay tu.stop_time_update).getD 0 = 0 ∧ tu.delay ≠ 0
        then tu.delay else (firstNonzeroDelay tu.stop_time_update).getD 0) ≠ 0 →
        True := fun _ => trivial
    congr 1
    have goal_d : (let dd := (if (firstNonzeroDelay tu.stop_time_update).getD 0 = 0 ∧
          tu.delay ≠ 0 then tu.delay else (firstNonzeroDelay tu.stop_time_update).getD 0);
        if dd ≠ 0 then some dd else none) = specDelayField tu := by
      unfold specDelayField
      cases hfd : firstNonzeroDelay tu.stop_time_update with
      | some dv =>
        have hdv : dv ≠ 0 := firstNonzeroDelay_ne_zero hfd
        simp [hdv]
      | none =>
        by_cases htd : tu.delay = 0 <;> simp [htd]
    have goal_t : (if (firstNonzeroTime tu.stop_time_update).getD 0 ≠ 0
        then some ((firstNonzeroTime tu.stop_time_update).getD 0) else none) =
        specTimeField tu := by
      unfold specTimeField
      cases hft : firstNonzeroTime tu.stop_time_update with
      | some tv =>
        have htv : tv ≠ 0 := firstNonzeroTime_ne_zero hft
        simp [htv]
      | none => simp
    rw [ParsedTripEntity.mk.injEq]
    refine ⟨rfl, ?_, ?_, ?_, rfl⟩
    · exact goal_d
    · exact goal_t
    · rfl

/-- C1 counterexample input: the first update carries the non-zero delay at
stop S1, a later update carries the first non-zero predicted time at stop
S2. -/
def c1cexTU : TripUpdate :=
  { trip := some ⟨"T1"⟩
    delay := 0
    stop_time_update :=
      [ { stop_id := "S1", departure := some ⟨600, 0⟩, arrival := none },
        { stop_id := "S2", departure := some ⟨0, 100⟩, arrival := none } ] }

/-- C1 counterexample: the delay-bearing update is the one at stop S1, and
its delay (600) is indeed selected, but the emitted stop id is S2 — the stop
of the time-bearing update — not the delay-bearing update's stop id as the
claim states. -/
theorem c1_counterexample :
    parseTripUpdate c1cexTU = some
      { i := "T1", st := some 2, d := some 600, t := some 100, s := some "S2" } ∧
    (firstHitIdx isDelayHit c1cexTU.stop_time_update).map (fun x => x.2.stop_id) =
      some "S1" ∧
    some "S2" ≠ some "S1" := by
  refine ⟨by decide, by decide, by decide⟩

/-- C1 witness input: the regression-test case T2 — a single update with a
zero arrival delay at S3 and trip-level delay -120. -/
def c1TUw : TripUpdate :=
  { trip := some ⟨"T2"⟩
    delay := -120
    stop_time_update := [ { stop_id := "S3", departure := none, arrival := some ⟨0, 0⟩ } ] }

theorem c1_delay_selection_witness :
    parseTripUpdate c1TUw = some
      { i := "T2", st := some 2, d := specDelayField c1TUw,
        t := specTimeField c1TUw, s := specStopField c1TUw } ∧
    specDelayField c1TUw = some (-120) ∧ specStopField c1TUw = some "S3" :=
  ⟨c1_delay_selection.2 c1TUw ⟨"T2"⟩ rfl (by decide), by decide, by decide⟩

/-! ## Claim C10 — byTrip key set -/

theorem byTrip_foldl_get (vp : ParsedFeed) (l : List ParsedTripEntity)
    (m : List (String × RealtimeTripStatus)) (k : String) :
    recordGet (l.foldl (fun m ent => recordSet m ent.i (byTripRecord vp ent)) m) k =
      match l.reverse.find? (fun ent => ent.i == k) with
      | some ent => some (byTripRecord vp ent)
      | none => recordGet m k := by
  induction l generalizing m with
  | nil => simp
  | cons e rest ih =>
    rw [List.foldl_cons, ih, List.reverse_cons, List.find?_append]
    cases hf : rest.reverse.find? (fun ent => ent.i == k) with
    | some ent => rfl
    | none =>
      rw [Option.none_or]
      by_cases he : (e.i == k) = true
      · have hk : e.i = k := by simpa using he
        subst hk
        simp only [List.find?_cons, beq_self_eq_true]
        exact recordGet_recordSet_self m e.i (byTripRecord vp e)
      · have hef : (e.i == k) = false := by simpa using he
        simp only [List.find?_cons, hef, List.find?_nil]
        exact recordGet_recordSet_ne m e.i k (byTripRecord vp e)
          (fun hc => he (by simp [hc]))

/-- C10: the key set of `byTrip` is exactly the set of trip ids of the
trip-update entities, and each entry carries the vehicle position stored for
the same trip id (or none). -/
theorem c10_byTrip_keys (tu vp sa : ParsedFeed) (k : String) :
    ((recordGet (buildRealtimeStatus tu vp sa).byTrip k).isSome ↔
      k ∈ tu.e.map (fun ent => ent.i)) ∧
    (∀ ts, recordGet (buildRealtimeStatus tu vp sa).byTrip k = some ts →
      ts.p = recordGet vp.p k) := by
  have hchar := byTrip_foldl_get vp tu.e [] k
  have hby : (buildRealtimeStatus tu vp sa).byTrip =
      tu.e.foldl (fun m ent => recordSet m ent.i (byTripRecord vp ent)) [] := rfl
  constructor
  · rw [hby, hchar]
    cases hf : tu.e.reverse.find? (fun ent => ent.i == k) with
    | some ent =>
      simp only [Option.isSome_some, true_iff]
      have hm := List.mem_of_find?_eq_some hf
      have hp := List.find?_some hf
      have hik : ent.i = k := by simpa using hp
      rw [List.mem_reverse] at hm
      exact List.mem_map.mpr ⟨ent, hm, hik⟩
    | none =>
      have hnil : recordGet ([] : List (String × RealtimeTripStatus)) k = none := rfl
      rw [hnil]
      simp only [Option.isSome_none, Bool.false_eq_true, false_iff]
      intro hmem
      rcases List.mem_map.mp hmem with ⟨ent, hent, hik⟩
      rw [List.find?_eq_none] at hf
      exact absurd (by simp [hik]) (hf ent (List.mem_reverse.mpr hent))
  · intro ts hts
    rw [hby, hchar] at hts
    cases hf : tu.e.reverse.find? (fun ent => ent.i == k) with
    | some ent =>
      rw [hf] at hts
      have hik : ent.i = k := by simpa using List.find?_some hf
      have hts2 : byTripRecord vp ent = ts := by
        injection hts
      rw [← hts2]
      unfold byTripRecord
      rw [hik]
    | none =>
      rw [hf] at hts
      simp [recordGet] at hts

def c10tuW : ParsedFeed := { t := 5, e := [{ i := "T1", d := some 60 }], p := [], a := [] }

def c10vpW : ParsedFeed :=
  { t := 7, e := [], p := [("T1", { la := JsNum.fin 1, lo := JsNum.fin 2 })], a := [] }

def c10saW : ParsedFeed := { t := 6, e := [], p := [], a := [] }

theorem c10_byTrip_keys_witness :
    ("T1" ∈ c10tuW.e.map (fun ent => ent.i)) ∧
    (byTripRecord c10vpW { i := "T1", d := some 60 }).p = recordGet c10vpW.p "T1" :=
  ⟨(c10_byTrip_keys c10tuW c10vpW c10saW "T1").1.mp (by decide),
   (c10_byTrip_keys c10tuW c10vpW c10saW "T1").2
     (byTripRecord c10vpW { i := "T1", d := some 60 }) (by decide)⟩

/-! ## Claim C8 — position quantization (corrected) -/

/-- Claim-side rounding rule: round half away from zero. -/
def roundAwayFromZero (q : ℚ) : ℤ :=
  if 0 ≤ q then ⌊q + 1/2⌋ else -⌊-q + 1/2⌋

/-- Quantization to five decimals as the original claim states it (ties away
from zero). -/
def quantAway5 (q : ℚ) : ℚ := ((roundAwayFromZero (q * 100000) : ℤ) : ℚ) / 100000

/-- Quantization to five decimals as the code computes it
(`Math.round(q·1e5)/1e5`, ties toward positive infinity). -/
def quantHalfUp5 (q : ℚ) : ℚ := ((⌊q * 100000 + 1/2⌋ : ℤ) : ℚ) / 100000

/-- C8 (amended): lat/lon are quantized to five decimal places with ties
rounded toward positive infinity (JS `Math.round`) — away from zero for
positive coordinates but toward zero for negative ties; bearing and speed
are included exactly when truthy; entities whose quantized coordinates are
non-finite are discarded. -/
theorem c8_position_quantization (v : VehicleEntity) (td : TripDescriptor)
    (pos : RtPosition) (htd : v.trip = some td) (hne : td.trip_id ≠ "")
    (hpos : v.position = some pos) :
    (∀ qla qlo : ℚ, pos.latitude = JsNum.fin qla → pos.longitude = JsNum.fin qlo →
      parseVehicle v = some (td.trip_id,
        { la := JsNum.fin (quantHalfUp5 qla), lo := JsNum.fin (quantHalfUp5 qlo),
          b := if pos.bearing.truthy then some pos.bearing else none,
          sp := if pos.speed.truthy then some pos.speed else none })) ∧
    (pos.latitude.isFinite = false ∨ pos.longitude.isFinite = false →
      parseVehicle v = none) := by
  have hq : ∀ x : JsNum, ∀ qx : ℚ, x = JsNum.fin qx →
      ((x.mulPos 100000).mathRound).divPos 100000 = JsNum.fin (quantHalfUp5 qx) := by
    intro x qx hx
    subst hx
    simp [JsNum.mulPos, JsNum.mathRound, JsNum.divPos, quantHalfUp5]
  have hnf : ∀ x : JsNum, x.isFinite = false →
      (((x.mulPos 100000).mathRound).divPos 100000).isFinite = false := by
    intro x hx
    cases x <;> simp [JsNum.mulPos, JsNum.mathRound, JsNum.divPos, JsNum.isFinite] at hx ⊢
  have hunfold : parseVehicle v =
      (if (((pos.latitude.mulPos 100000).mathRound).divPos 100000).isFinite = true ∧
          (((pos.longitude.mulPos 100000).mathRound).divPos 100000).isFinite = true then
        some (td.trip_id,
          { la := ((pos.latitude.mulPos 100000).mathRound).divPos 100000
            lo := ((pos.longitude.mulPos 100000).mathRound).divPos 100000
            b := if pos.bearing.truthy then some pos.bearing else none
            sp := if pos.speed.truthy then some pos.speed else none })
      else none) := by
    unfold parseVehicle
    rw [htd]
    simp only [if_neg hne]
    rw [hpos]
  constructor
  · intro qla qlo hla hlo
    rw [hunfold, hq pos.latitude qla hla, hq pos.longitude qlo hlo]
    simp [JsNum.isFinite]
  · intro hbad
    rw [hunfold]
    have hcond : ¬ ((((pos.latitude.mulPos 100000).mathRound).divPos 100000).isFinite = true ∧
        (((pos.longitude.mulPos 100000).mathRound).divPos 100000).isFinite = true) := by
      intro hcon
      rcases hbad with h1 | h1
      · rw [hnf pos.latitude h1] at hcon
        simp at hcon
      · rw [hnf pos.longitude h1] at hcon
        simp at hcon
    rw [if_neg hcond]

/-- C8 counterexample input: latitude is an exact negative tie at the fifth
decimal. -/
def c8cexV : VehicleEntity :=
  { trip := some ⟨"T1"⟩
    position := some { latitude := JsNum.fin (-1/200000), longitude := JsNum.fin 0
                       bearing := JsNum.fin 0, speed := JsNum.fin 0 } }

/-- C8 counterexample: the code stores latitude 0 for input -0.000005, but
rounding half away from zero (as the claim states, for negative coordinates
alike) would give -0.00001. -/
theorem c8_counterexample :
    parseVehicle c8cexV = some ("T1", { la := JsNum.fin 0, lo := JsNum.fin 0 }) ∧
    quantAway5 (-1/200000) = -1/100000 ∧
    JsNum.fin 0 ≠ JsNum.fin (quantAway5 (-1/200000)) := by
  have hq : quantAway5 (-1/200000) = -1/100000 := by
    unfold quantAway5 roundAwayFromZero
    norm_num
  refine ⟨?_, hq, ?_⟩
  · unfold parseVehicle c8cexV
    norm_num [JsNum.mulPos, JsNum.mathRound, JsNum.divPos, JsNum.isFinite, JsNum.truthy]
    intro hcon
    exact absurd hcon (by decide)
  · rw [hq]
    intro hcon
    injection hcon with hcon2
    norm_num at hcon2

def c8W : VehicleEntity :=
  { trip := some ⟨"V1"⟩
    position := some { latitude := JsNum.fin (1/3), longitude := JsNum.fin 0
                       bearing := JsNum.fin 45, speed := JsNum.fin 0 } }

theorem c8_position_quantization_witness :
    parseVehicle c8W = some ("V1",
      { la := JsNum.fin (quantHalfUp5 (1/3)), lo := JsNum.fin (quantHalfUp5 0),
        b := if (JsNum.fin 45).truthy then some (JsNum.fin 45) else none,
        sp := if (JsNum.fin 0).truthy then some (JsNum.fin 0) else none }) :=
  (c8_position_quantization c8W ⟨"V1"⟩ _ rfl (by decide) rfl).1 (1/3) 0 rfl rfl

/-! ## `worker/src/index.ts` — the read API (`fetch` handler)

The constant CORS and security headers attached to every response are
claim-irrelevant constants and are not carried in the model; the
per-response `Content-Type`, `Cache-Control` and `ETag` headers, the status
and the body are modelled explicitly. -/

structure WRequest where
  method : String
  path : String
  ifNoneMatch : Option String
deriving DecidableEq, Repr

structure WResponse where
  status : ℕ
  body : Option String := none
  contentType : Option String := none
  cacheControl : Option String := none
  etag : Option String := none
deriving DecidableEq, Repr

/-- KV contents seen by the handler.  `realtimeMeta` models `metadata?.t`
from `getWithMetadata` (`none` covers both a missing metadata object and a
metadata object without `t`). -/
structure KVState where
  scheduleData : Option String := none
  scheduleMeta : Option String := none
  realtimeStatus : Option String := none
  realtimeMeta : Option Int := none
deriving DecidableEq, Repr

/-- Source: the `fetch` handler of `worker/src/index.ts`, branch for
branch.  Note the source checks `request.method` only against `OPTIONS`;
the three path branches never inspect the method. -/
def workerFetch (req : WRequest) (kv : KVState) : WResponse :=
  if req.method = "OPTIONS" then
    { status := 204 }
  else if req.path = "/api/schedule" then
    match kv.scheduleData with
    | none =>
      { status := 404, body := some "\x7b\"error\":\"No schedule data\"\x7d"
        contentType := some "application/json" }
    | some data =>
      { status := 200, body := some data, contentType := some "application/json"
        cacheControl := some "public, max-age=3600" }
  else if req.path = "/api/meta" then
    match kv.scheduleMeta with
    | none =>
      { status := 404, body := some "\x7b\"error\":\"No meta data\"\x7d"
        contentType := some "application/json" }
    | some data =>
      { status := 200, body := some data, contentType := some "application/json"
        cacheControl := some "public, max-age=60" }
  else if req.path = "/api/realtime" then
    match kv.realtimeStatus with
    | none =>
      { status := 404, body := some "\x7b\"error\": \"No data\"\x7d"
        contentType := some "application/json" }
    | some value =>
      match kv.realtimeMeta with
      | some t =>
        if t ≠ 0 then
          let etag := "W/\"" ++ toString t ++ "\""
          if req.ifNoneMatch = some etag then
            { status := 304, cacheControl := some "public, max-age=30", etag := some etag }
          else
            { status := 200, body := some value, contentType := some "application/json"
              cacheControl := some "public, max-age=30", etag := some etag }
        else
          { status := 200, body := some value, contentType := some "application/json"
            cacheControl := some "public, max-age=30" }
      | none =>
        { status := 200, body := some value, contentType := some "application/json"
          cacheControl := some "public, max-age=30" }
  else
    { status := 404, body := some "Not found" }

/-! ## Claim C6 — routing (corrected) -/

/-- C6 (amended): OPTIONS on any path returns 204; any non-OPTIONS request
whose path is not one of the three API paths returns 404; and on the three
API paths the method of a non-OPTIONS request is ignored — it is served
exactly as a GET would be. -/
theorem c6_routing :
    (∀ (req : WRequest) (kv : KVState), req.method = "OPTIONS" →
      (workerFetch req kv).status = 204 ∧ (workerFetch req kv).body = none) ∧
    (∀ (req : WRequest) (kv : KVState), req.method ≠ "OPTIONS" →
      req.path ∉ (["/api/schedule", "/api/meta", "/api/realtime"] : List String) →
      (workerFetch req kv).status = 404) ∧
    (∀ (m p : String) (inm : Option String) (kv : KVState), m ≠ "OPTIONS" →
      workerFetch { method := m, path := p, ifNoneMatch := inm } kv =
        workerFetch { method := "GET", path := p, ifNoneMatch := inm } kv) := by
  refine ⟨?_, ?_, ?_⟩
  · intro req kv hm
    unfold workerFetch
    rw [if_pos hm]
    exact ⟨rfl, rfl⟩
  · intro req kv hm hp
    simp only [List.mem_cons, List.mem_singleton, not_or] at hp
    unfold workerFetch
    rw [if_neg hm, if_neg hp.1, if_neg hp.2.1, if_neg hp.2.2.1]
  · intro m p inm kv hm
    unfold workerFetch
    rw [if_neg hm, if_neg (by decide : ¬ ("GET" : String) = "OPTIONS")]

def c6kv : KVState := { scheduleData := some "SCHED" }

/-- C6 counterexample: a POST to /api/schedule is served with status 200
(the stored blob), not 404 as the claim requires for non-GET methods. -/
theorem c6_counterexample :
    (workerFetch { method := "POST", path := "/api/schedule", ifNoneMatch := none }
      c6kv).status = 200 ∧
    (workerFetch { method := "POST", path := "/api/schedule", ifNoneMatch := none }
      c6kv).status ≠ 404 := by
  refine ⟨rfl, by decide⟩

theorem c6_routing_witness :
    (workerFetch { method := "OPTIONS", path := "/whatever", ifNoneMatch := none }
      c6kv).status = 204 ∧
    (workerFetch { method := "GET", path := "/nope", ifNoneMatch := none }
      c6kv).status = 404 ∧
    workerFetch { method := "POST", path := "/api/meta", ifNoneMatch := none } c6kv =
      workerFetch { method := "GET", path := "/api/meta", ifNoneMatch := none } c6kv :=
  ⟨(c6_routing.1 { method := "OPTIONS", path := "/whatever", ifNoneMatch := none }
      c6kv rfl).1,
   c6_routing.2.1 { method := "GET", path := "/nope", ifNoneMatch := none } c6kv
     (by decide) (by decide),
   c6_routing.2.2 "POST" "/api/meta" none c6kv (by decide)⟩

/-! ## Claim C7 — ETag behaviour (corrected) -/

/-- GET request to /api/realtime with a given If-None-Match header. -/
def rtReq (inm : Option String) : WRequest :=
  { method := "GET", path := "/api/realtime", ifNoneMatch := inm }

/-- C7 (amended): whenever the realtime value exists with stored metadata
carrying a non-zero feed timestamp t, a GET /api/realtime response carries
ETag W/"t", and a conditional request whose If-None-Match equals that ETag
receives 304 with no body and the same Cache-Control and ETag as the 200
response. -/
theorem c7_etag (kv : KVState) (v : String) (t : Int)
    (hval : kv.realtimeStatus = some v) (hmeta : kv.realtimeMeta = some t)
    (ht : t ≠ 0) :
    (workerFetch (rtReq none) kv).status = 200 ∧
    (workerFetch (rtReq none) kv).etag = some ("W/\"" ++ toString t ++ "\"") ∧
    (workerFetch (rtReq (some ("W/\"" ++ toString t ++ "\""))) kv).status = 304 ∧
    (workerFetch (rtReq (some ("W/\"" ++ toString t ++ "\""))) kv).body = none ∧
    (workerFetch (rtReq (some ("W/\"" ++ toString t ++ "\""))) kv).cacheControl =
      (workerFetch (rtReq none) kv).cacheControl ∧
    (workerFetch (rtReq (some ("W/\"" ++ toString t ++ "\""))) kv).etag =
      (workerFetch (rtReq none) kv).etag := by
  unfold workerFetch rtReq
  rw [hval, hmeta]
  simp only [if_neg (by decide : ¬ ("GET" : String) = "OPTIONS"),
    if_neg (by decide : ¬ ("/api/realtime" : String) = "/api/schedule"),
    if_neg (by decide : ¬ ("/api/realtime" : String) = "/api/meta"),
    if_pos (rfl : ("/api/realtime" : String) = "/api/realtime"), if_pos ht]
  simp

def c7kv : KVState := { realtimeStatus := some "\x7b\x7d", realtimeMeta := some 0 }

/-- C7 counterexample: with stored metadata t = 0 the handler serves the
value with no ETag at all, and a conditional request with If-None-Match
W/"0" receives 200, not 304. -/
theorem c7_counterexample :
    (workerFetch (rtReq none) c7kv).etag = none ∧
    (workerFetch (rtReq (some "W/\"0\"")) c7kv).status = 200 := by
  refine ⟨rfl, rfl⟩

def c7kvW : KVState := { realtimeStatus := some "\x7b\x7d", realtimeMeta := some 1735689600 }

theorem c7_etag_witness :
    (workerFetch (rtReq none) c7kvW).status = 200 ∧
    (workerFetch (rtReq (some ("W/\"" ++ toString (1735689600 : Int) ++ "\""))) c7kvW).status = 304 :=
  ⟨(c7_etag c7kvW "\x7b\x7d" 1735689600 rfl rfl (by decide)).1,
   (c7_etag c7kvW "\x7b\x7d" 1735689600 rfl rfl (by decide)).2.2.1⟩

/-! ## `worker/src/index.ts` — API-key redaction in the `scheduled` worker

Strings are handled as `List Char` here to reason about substring
occurrences. -/

/-- Fuel-driven core of `String.prototype.replaceAll`: scan left to right,
replace each (non-overlapping) occurrence of `pat` by `rep`.  The wrapper
supplies `fuel = s.length`, which is always sufficient for a non-empty
pattern. -/
def replaceAllFuel (pat rep : List Char) : ℕ → List Char → List Char
  | _, [] => []
  | 0, s => s
  | fuel + 1, c :: cs =>
    if pat.isPrefixOf (c :: cs) then
      rep ++ replaceAllFuel pat rep fuel ((c :: cs).drop pat.length)
    else
      c :: replaceAllFuel pat rep fuel cs

/-- Model of JS `replaceAll` (the sources only call it with a non-empty
pattern: the `scheduled` handler guards on a truthy `apiKey`). -/
def replaceAll (s pat rep : List Char) : List Char :=
  if pat = [] then s else replaceAllFuel pat rep s.length s

/-- JS `encodeURIComponent` unreserved characters. -/
def isUnreservedURI (c : Char) : Bool :=
  c.isAlphanum || c = '-' || c = '_' || c = '.' || c = '!' || c = '~' || c = '*' ||
    c = Char.ofNat 39 || c = '(' || c = ')'

/-- UTF-8 bytes of a code point. -/
def utf8Bytes (n : ℕ) : List ℕ :=
  if n < 128 then [n]
  else if n < 2048 then [192 + n / 64, 128 + n % 64]
  else if n < 65536 then [224 + n / 4096, 128 + (n / 64) % 64, 128 + n % 64]
  else [240 + n / 262144, 128 + (n / 4096) % 64, 128 + (n / 64) % 64, 128 + n % 64]

/-- Uppercase hexadecimal digit. -/
def hexDigitUpper (n : ℕ) : Char :=
  if n < 10 then Char.ofNat (48 + n) else Char.ofNat (55 + n)

/-- Percent-escape of one byte, uppercase hex as JS produces. -/
def percentByte (b : ℕ) : List Char :=
  ['%', hexDigitUpper (b / 16), hexDigitUpper (b % 16)]

/-- Model of JS `encodeURIComponent`: unreserved characters pass through,
all others become percent-escapes of their UTF-8 bytes. -/
def encodeURIComponent (s : List Char) : List Char :=
  (s.map (fun c =>
    if isUnreservedURI c then [c]
    else ((utf8Bytes c.toNat).map percentByte).flatten)).flatten

/-- The replacement text of the redaction. -/
def redactedText : List Char := "REDACTED".data

/-- Source: the `catch` block of `scheduled` — replace the raw key, then
its URL-encoded form when different. -/
def redactError (apiKey errStr : List Char) : List Char :=
  if apiKey ≠ [] then
    let redacted1 := replaceAll errStr apiKey redactedText
    if encodeURIComponent apiKey ≠ apiKey then
      replaceAll redacted1 (encodeURIComponent apiKey) redactedText
    else redacted1
  else errStr

/-- The fixed text `console.error` prefixes to the redacted message (the
two arguments are joined with a space). -/
def logPrefixText : List Char := "Error fetching/parsing GTFS-RT: ".data

/-- The full logged line of the failure path. -/
def loggedLine (apiKey errStr : List Char) : List Char :=
  logPrefixText ++ redactError apiKey errStr

/-! ### Infix lemmas about `replaceAll` -/

theorem infix_drop_of_append {q r t : List Char} (hq : q ≠ [])
    (hdisj : ∀ c ∈ r, c ∉ q) (hinf : q <:+: r ++ t) : q <:+: t := by
  induction r with
  | nil => simpa using hinf
  | cons c rs ih =>
    rw [List.cons_append] at hinf
    rcases List.infix_cons_iff.mp hinf with hpre | hinf2
    · cases q with
      | nil => exact absurd rfl hq
      | cons q0 q2 =>
        have hq0 : q0 = c := (List.cons_prefix_cons.mp hpre).1
        exact absurd (by rw [hq0]; exact List.mem_cons_self _ _)
          (hdisj c (List.mem_cons_self _ _))
    · exact ih (fun c2 hc2 => hdisj c2 (List.mem_cons_of_mem _ hc2)) hinf2

theorem prefix_of_replaceAllFuel (pat rep : List Char) (hrep : rep ≠ []) :
    ∀ (fuel : ℕ) (s q : List Char), s.length ≤ fuel → (∀ c ∈ rep, c ∉ q) →
      q <+: replaceAllFuel pat rep fuel s → q <+: s := by
  intro fuel
  induction fuel with
  | zero =>
    intro s q hlen hdisj hpre
    cases s with
    | nil => simpa [replaceAllFuel] using hpre
    | cons c cs => simp at hlen
  | succ n ih =>
    intro s q hlen hdisj hpre
    cases s with
    | nil => simpa [replaceAllFuel] using hpre
    | cons c cs =>
      unfold replaceAllFuel at hpre
      by_cases hpref : pat.isPrefixOf (c :: cs)
      · rw [if_pos hpref] at hpre
        cases q with
        | nil => exact List.nil_prefix
        | cons q0 q2 =>
          cases rep with
          | nil => exact absurd rfl hrep
          | cons r0 rs =>
            rw [List.cons_append] at hpre
            have hq0 : q0 = r0 := (List.cons_prefix_cons.mp hpre).1
            exact absurd (by rw [hq0]; exact List.mem_cons_self _ _)
              (hdisj r0 (List.mem_cons_self _ _))
      · rw [if_neg hpref] at hpre
        cases q with
        | nil => exact List.nil_prefix
        | cons q0 q2 =>
          have hq0 : q0 = c := (List.cons_prefix_cons.mp hpre).1
          have hq2 : q2 <+: replaceAllFuel pat rep n cs :=
            (List.cons_prefix_cons.mp hpre).2
          have : q2 <+: cs :=
            ih cs q2 (by simpa using hlen)
              (fun c2 hc2 => fun hmem => hdisj c2 hc2 (List.mem_cons_of_mem _ hmem)) hq2
          rw [hq0]
          exact List.cons_prefix_cons.mpr ⟨rfl, this⟩

theorem not_infix_replaceAllFuel (pat rep : List Char) (hpat : pat ≠ [])
    (hrep : rep ≠ []) (hdisj : ∀ c ∈ rep, c ∉ pat) :
    ∀ (fuel : ℕ) (s : List Char), s.length ≤ fuel →
      ¬ pat <:+: replaceAllFuel pat rep fuel s := by
  intro fuel
  induction fuel with
  | zero =>
    intro s hlen hinf
    cases s with
    | nil =>
      rw [show replaceAllFuel pat rep 0 [] = [] from rfl] at hinf
      exact hpat (List.eq_nil_of_infix_nil hinf)
    | cons c cs => simp at hlen
  | succ n ih =>
    intro s hlen hinf
    cases s with
    | nil =>
      rw [show replaceAllFuel pat rep (n + 1) [] = [] from rfl] at hinf
      exact hpat (List.eq_nil_of_infix_nil hinf)
    | cons c cs =>
      unfold replaceAllFuel at hinf
      by_cases hpref : pat.isPrefixOf (c :: cs)
      · rw [if_pos hpref] at hinf
        have h2 := infix_drop_of_append hpat hdisj hinf
        have hlen2 : ((c :: cs).drop pat.length).length ≤ n := by
          have hp1 : 1 ≤ pat.length := by
            cases pat with
            | nil => exact absurd rfl hpat
            | cons p0 ps => simp
          have hl : cs.length + 1 ≤ n + 1 := by simpa using hlen
          simp only [List.length_drop, List.length_cons]
          omega
        exact ih _ hlen2 h2
      · rw [if_neg hpref] at hinf
        rcases List.infix_cons_iff.mp hinf with hpre | hinf2
        · cases pat with
          | nil => exact hpat rfl
          | cons p0 ps =>
            have hp0 : p0 = c := (List.cons_prefix_cons.mp hpre).1
            have hps : ps <+: replaceAllFuel (p0 :: ps) rep n cs :=
              (List.cons_prefix_cons.mp hpre).2
            have hps2 : ps <+: cs :=
              prefix_of_replaceAllFuel (p0 :: ps) rep hrep n cs ps
                (by simpa using hlen)
                (fun c2 hc2 => fun hmem => hdisj c2 hc2 (List.mem_cons_of_mem _ hmem))
                hps
            have : (p0 :: ps).isPrefixOf (c :: cs) := by
              rw [List.isPrefixOf_iff_prefix]
              exact List.cons_prefix_cons.mpr ⟨hp0, hps2⟩
            exact hpref this
        · exact ih cs (by simpa using hlen) hinf2

theorem not_infix_replaceAllFuel_preserved (pat rep q : List Char) (hpat : pat ≠ [])
    (hrep : rep ≠ []) (hq : q ≠ []) (hdisj : ∀ c ∈ rep, c ∉ q) :
    ∀ (fuel : ℕ) (s : List Char), s.length ≤ fuel → ¬ q <:+: s →
      ¬ q <:+: replaceAllFuel pat rep fuel s := by
  intro fuel
  induction fuel with
  | zero =>
    intro s hlen hs hinf
    cases s with
    | nil =>
      rw [show replaceAllFuel pat rep 0 [] = [] from rfl] at hinf
      exact hs hinf
    | cons c cs => simp at hlen
  | succ n ih =>
    intro s hlen hs hinf
    cases s with
    | nil =>
      rw [show replaceAllFuel pat rep (n + 1) [] = [] from rfl] at hinf
      exact hs hinf
    | cons c cs =>
      unfold replaceAllFuel at hinf
      by_cases hpref : pat.isPrefixOf (c :: cs)
      · rw [if_pos hpref] at hinf
        have h2 := infix_drop_of_append hq hdisj hinf
        have hdropsuffix : (c :: cs).drop pat.length <:+ c :: cs := List.drop_suffix _ _
        have hnot : ¬ q <:+: (c :: cs).drop pat.length := by
          intro hcon
          exact hs (hcon.trans hdropsuffix.isInfix)
        have hlen2 : ((c :: cs).drop pat.length).length ≤ n := by
          have hp1 : 1 ≤ pat.length := by
            cases pat with
            | nil => exact absurd rfl hpat
            | cons p0 ps => simp
          have hl : cs.length + 1 ≤ n + 1 := by simpa using hlen
          simp only [List.length_drop, List.length_cons]
          omega
        exact ih _ hlen2 hnot h2
      · rw [if_neg hpref] at hinf
        rcases List.infix_cons_iff.mp hinf with hpre | hinf2
        · cases q with
          | nil => exact hq rfl
          | cons q0 q2 =>
            have hq0 : q0 = c := (List.cons_prefix_cons.mp hpre).1
            have hq2 : q2 <+: replaceAllFuel pat rep n cs :=
              (List.cons_prefix_cons.mp hpre).2
            have hq2cs : q2 <+: cs :=
              prefix_of_replaceAllFuel pat rep hrep n cs q2 (by simpa using hlen)
                (fun c2 hc2 => fun hmem => hdisj c2 hc2 (List.mem_cons_of_mem _ hmem))
                hq2
            have : (q0 :: q2) <+: c :: cs := by
              rw [hq0]
              exact List.cons_prefix_cons.mpr ⟨rfl, hq2cs⟩
            exact hs this.isInfix
        · have hnot : ¬ q <:+: cs := by
            intro hcon
            exact hs (hcon.trans (List.suffix_cons c cs).isInfix)
          exact ih cs (by simpa using hlen) hnot hinf2

theorem not_infix_replaceAll (pat rep : List Char) (hpat : pat ≠ [])
    (hrep : rep ≠ []) (hdisj : ∀ c ∈ rep, c ∉ pat) (s : List Char) :
    ¬ pat <:+: replaceAll s pat rep := by
  unfold replaceAll
  rw [if_neg hpat]
  exact not_infix_replaceAllFuel pat rep hpat hrep hdisj s.length s le_rfl

theorem not_infix_replaceAll_preserved (pat rep q : List Char) (hrep : rep ≠ [])
    (hq : q ≠ []) (hdisj : ∀ c ∈ rep, c ∉ q) (s : List Char) (hs : ¬ q <:+: s) :
    ¬ q <:+: replaceAll s pat rep := by
  unfold replaceAll
  by_cases hpat : pat = []
  · rw [if_pos hpat]
    exact hs
  · rw [if_neg hpat]
    exact not_infix_replaceAllFuel_preserved pat rep q hpat hrep hq hdisj s.length s le_rfl hs

theorem encodeURIComponent_ne_nil {k : List Char} (hk : k ≠ []) :
    encodeURIComponent k ≠ [] := by
  cases k with
  | nil => exact absurd rfl hk
  | cons c rest =>
    unfold encodeURIComponent
    rw [List.map_cons, List.flatten_cons]
    intro hcon
    have h1 := (List.append_eq_nil.mp hcon).1
    by_cases hu : isUnreservedURI c
    · rw [if_pos hu] at h1
      simp at h1
    · rw [if_neg hu] at h1
      unfold utf8Bytes at h1
      split_ifs at h1 <;> simp [percentByte] at h1

/-! ## Claim C9 — secret redaction (corrected) -/

/-- C9 (amended): for every non-empty API key such that neither the key nor
its percent-encoded form shares a character with the fixed log text
(`Error fetching/parsing GTFS-RT: ` and the replacement `REDACTED`), the
logged line contains neither the raw key nor its percent-encoded form as a
substring.  (Without that restriction the claim fails: `replaceAll` can
recreate an occurrence out of the replacement text itself.) -/
theorem c9_secret_redaction (apiKey : List Char) (hne : apiKey ≠ [])
    (hk : ∀ c ∈ logPrefixText ++ redactedText, c ∉ apiKey)
    (he : ∀ c ∈ logPrefixText ++ redactedText, c ∉ encodeURIComponent apiKey)
    (errStr : List Char) :
    ¬ apiKey <:+: loggedLine apiKey errStr ∧
    ¬ encodeURIComponent apiKey <:+: loggedLine apiKey errStr := by
  have hkP : ∀ c ∈ logPrefixText, c ∉ apiKey :=
    fun c hc => hk c (List.mem_append_left _ hc)
  have hkR : ∀ c ∈ redactedText, c ∉ apiKey :=
    fun c hc => hk c (List.mem_append_right _ hc)
  have heP : ∀ c ∈ logPrefixText, c ∉ encodeURIComponent apiKey :=
    fun c hc => he c (List.mem_append_left _ hc)
  have heR : ∀ c ∈ redactedText, c ∉ encodeURIComponent apiKey :=
    fun c hc => he c (List.mem_append_right _ hc)
  have hRne : redactedText ≠ [] := by decide
  have hEne : encodeURIComponent apiKey ≠ [] := encodeURIComponent_ne_nil hne
  have hred1 : ¬ apiKey <:+: redactError apiKey errStr := by
    unfold redactError
    rw [if_pos hne]
    by_cases henc : encodeURIComponent apiKey ≠ apiKey
    · rw [if_pos henc]
      exact not_infix_replaceAll_preserved _ redactedText apiKey hRne hne hkR _
        (not_infix_replaceAll apiKey redactedText hne hRne hkR errStr)
    · rw [if_neg henc]
      exact not_infix_replaceAll apiKey redactedText hne hRne hkR errStr
  have hred2 : ¬ encodeURIComponent apiKey <:+: redactError apiKey errStr := by
    unfold redactError
    rw [if_pos hne]
    by_cases henc : encodeURIComponent apiKey ≠ apiKey
    · rw [if_pos henc]
      exact not_infix_replaceAll (encodeURIComponent apiKey) redactedText hEne hRne heR _
    · rw [if_neg henc]
      rw [not_ne_iff] at henc
      rw [henc]
      exact not_infix_replaceAll apiKey redactedText hne hRne hkR errStr
  constructor
  · intro hinf
    exact hred1 (infix_drop_of_append hne hkP hinf)
  · intro hinf
    exact hred2 (infix_drop_of_append hEne heP hinf)

def c9cexKey : List Char := "RED".data

/-- C9 counterexample: with API key `RED`, redacting the message `RED: 500`
produces `REDACTED: 500`, which still contains the raw key — the
replacement text itself reintroduces it, so the claim is false for every
value of the API key. -/
theorem c9_counterexample :
    redactError c9cexKey ("RED: 500".data) = "REDACTED: 500".data ∧
    c9cexKey <:+: loggedLine c9cexKey ("RED: 500".data) := by
  refine ⟨by decide, by decide⟩

def c9wKey : List Char := "zq7".data

theorem c9_secret_redaction_witness :
    ¬ c9wKey <:+: loggedLine c9wKey ("boom zq7 zq7!".data) ∧
    ¬ encodeURIComponent c9wKey <:+: loggedLine c9wKey ("boom zq7 zq7!".data) :=
  c9_secret_redaction c9wKey (by decide) (by decide) (by decide) ("boom zq7 zq7!".data)

/-! ## `scripts/parse-gtfs.ts` — the static schedule builder

The ZIP container and CSV decoding (`jszip`, `csv-parse`) are library code;
the archive is modelled as its decoded row lists (one structure per CSV row
type, all fields strings as CSV delivers them) together with the raw
archive bytes.  A table missing from the ZIP is the empty list, exactly as
`readCsv` returns `[]` for a missing file. -/

structure GtfsStop where
  stop_id : String
  stop_name : String
  zone_id : String
  location_type : String
  parent_station : String
  stop_lat : String
  stop_lon : String
deriving DecidableEq, Repr

structure GtfsRoute where
  route_id : String
  route_short_name : String
deriving DecidableEq, Repr

structure GtfsTrip where
  route_id : String
  service_id : String
  trip_id : String
  direction_id : String
  trip_short_name : String
deriving DecidableEq, Repr

structure GtfsStopTime where
  trip_id : String
  arrival_time : String
  departure_time : String
  stop_id : String
  stop_sequence : String
deriving DecidableEq, Repr

structure GtfsCalendar where
  service_id : String
  monday : String
  tuesday : String
  wednesday : String
  thursday : String
  friday : String
  saturday : String
  sunday : String
  start_date : String
  end_date : String
deriving DecidableEq, Repr

structure GtfsCalendarDate where
  service_id : String
  date : String
  exception_type : String
deriving DecidableEq, Repr

structure GtfsFareAttribute where
  fare_id : String
  price : String
  currency_type : String
deriving DecidableEq, Repr

structure GtfsFareRule where
  fare_id : String
  origin_id : String
  destination_id : String
deriving DecidableEq, Repr

structure GtfsFarezoneAttribute where
  zone_id : String
  zone_name : String
deriving DecidableEq, Repr

structure GtfsArchive where
  bytes : List ℕ
  stops : List GtfsStop
  routes : List GtfsRoute
  trips : List GtfsTrip
  stopTimes : List GtfsStopTime
  calendar : List GtfsCalendar
  calendarDates : List GtfsCalendarDate
  fareAttrs : List GtfsFareAttribute
  fareRules : List GtfsFareRule
  farezones : List GtfsFarezoneAttribute
deriving DecidableEq, Repr

/-! ### Numeric string parsing (models of the JS runtime functions) -/

/-- Value of a run of decimal digit characters. -/
def digitsVal (l : List Char) : Int :=
  l.foldl (fun a c => a * 10 + ((c.toNat : Int) - 48)) 0

/-- Core of `parseInt(s, 10)` on a character list (`none` is NaN):
optional leading whitespace, optional sign, then a non-empty digit run. -/
def parseIntCore (cs0 : List Char) : Option Int :=
  let cs := cs0.dropWhile (fun c => c.isWhitespace)
  let core : List Char → Option Int := fun l =>
    let ds := l.takeWhile (fun c => c.isDigit)
    if ds = [] then none else some (digitsVal ds)
  match cs with
  | '-' :: rest => (core rest).map (fun n => -n)
  | '+' :: rest => core rest
  | _ => core cs

/-- Model of JS `parseInt(s, 10)`. -/
def parseIntJs (s : String) : Option Int := parseIntCore s.data

/-- Negation on the JS number model. -/
def JsNum.neg : JsNum → JsNum
  | .fin q => .fin (-q)
  | .posInf => .negInf
  | .negInf => .posInf
  | .nan => .nan

/-- Model of JS `parseFloat` restricted to plain decimal forms (optional
sign, digits, optional fraction); exponent and `Infinity` forms do not
occur in GTFS numeric fields.  Anything unparsable is NaN. -/
def parseFloatJs (s : String) : JsNum :=
  let core : List Char → JsNum := fun l =>
    let ip := l.takeWhile (fun c => c.isDigit)
    let rest2 := l.drop ip.length
    match rest2 with
    | '.' :: frac0 =>
      let fp := frac0.takeWhile (fun c => c.isDigit)
      if ip = [] ∧ fp = [] then JsNum.nan
      else JsNum.fin ((digitsVal ip : ℚ) + (digitsVal fp : ℚ) / (10 ^ fp.length))
    | _ => if ip = [] then JsNum.nan else JsNum.fin ((digitsVal ip : ℚ))
  let cs := s.data.dropWhile (fun c => c.isWhitespace)
  match cs with
  | '-' :: rest => (core rest).neg
  | '+' :: rest => core rest
  | _ => core cs

/-- Structural splitter with JS `String.prototype.split` semantics on a
single-character separator. -/
def splitCols (sep : Char) : List Char → List (List Char)
  | [] => [[]]
  | c :: cs =>
    let r := splitCols sep cs
    if c = sep then [] :: r
    else
      match r with
      | f :: rest => (c :: f) :: rest
      | [] => [[c]]

/-- Source: `timeToMinutes` — "HH:MM:SS" to minutes from midnight, hours
past 24 allowed; fewer than two fields give 0; `none` is NaN (propagated
from `parseInt`). -/
def timeToMinutes (time : String) : Option Int :=
  match splitCols ':' time.data with
  | p0 :: p1 :: _ =>
    match parseIntCore p0, parseIntCore p1 with
    | some hours, some minutes => some (hours * 60 + minutes)
    | _, _ => none
  | _ => some 0

/-- Source: `priceToCents` — `Math.round(parseFloat(price) * 100)`. -/
def priceToCents (price : String) : JsNum :=
  ((parseFloatJs price).mulPos 100).mathRound

/-- The literal matched by the name-cleaning regex. -/
def caltrainLit : List Char := "Caltrain Station".data

/-- One attempt to match a whole `\s*Caltrain Station\s*` occurrence at the
head of the list; returns the remainder on success. -/
def matchCaltrainStation (s : List Char) : Option (List Char) :=
  let ws1 := s.takeWhile (fun c => c.isWhitespace)
  let afterWs := s.drop ws1.length
  if caltrainLit.isPrefixOf afterWs then
    let afterLit := afterWs.drop caltrainLit.length
    some (afterLit.drop (afterLit.takeWhile (fun c => c.isWhitespace)).length)
  else none

/-- Fuel-driven global scan for `cleanStationName`; each step consumes at
least one character, so `fuel = s.length` is always sufficient. -/
def cleanScan : ℕ → List Char → List Char
  | _, [] => []
  | 0, s => s
  | fuel + 1, c :: cs =>
    match matchCaltrainStation (c :: cs) with
    | some rest => ' ' :: cleanScan fuel rest
    | none => c :: cleanScan fuel cs

/-- Model of JS `String.prototype.trim`. -/
def trimJs (s : List Char) : List Char :=
  ((s.dropWhile (fun c => c.isWhitespace)).reverse.dropWhile (fun c => c.isWhitespace)).reverse

/-- Source: `cleanStationName` — replace every `\s*Caltrain Station\s*`
occurrence by a single space, then trim. -/
def cleanStationName (name : String) : String :=
  String.mk (trimJs (cleanScan name.data.length name.data))

/-! ### Builder output shapes (the `StaticSchedule` of the source) -/

structure Station where
  n : String
  z : String
  ids : List String
  lat : JsNum
  lon : JsNum
deriving DecidableEq, Repr

structure Trip where
  i : String
  s : String
  p : String
  d : Int
  st : List (Option Int)
  rt : String
deriving DecidableEq, Repr

structure CalendarEntry where
  days : List (Option Int)
  start : Option Int
  endDate : Option Int
deriving DecidableEq, Repr

structure CalendarException where
  date : Option Int
  type : Option Int
deriving DecidableEq, Repr

structure FareZone where
  name : String
deriving DecidableEq, Repr

structure FareRules where
  zones : List (String × FareZone)
  fares : List (String × JsNum)
deriving DecidableEq, Repr

structure ServiceRules where
  c : List (String × CalendarEntry)
  e : List (String × List CalendarException)
deriving DecidableEq, Repr

/-- Metadata object.  `sv` and `u` are `Option` because a JSON object may
carry either, neither or both; the builder in the source emits `u` (the
build time) and no `sv`. -/
structure ScheduleMeta where
  v : String
  e : Int
  sv : Option Int
  u : Option Int
deriving DecidableEq, Repr

structure StaticSchedule where
  m : ScheduleMeta
  p : List (String × List String)
  t : List Trip
  r : ServiceRules
  s : List (String × Station)
  f : FareRules
  x : List (String × List String)
  o : Option (List String)
deriving DecidableEq, Repr

/-! ### Builder stages -/

/-- Route id to short name lookup. -/
def buildRouteMap (routes : List GtfsRoute) : List (String × String) :=
  routes.foldl (fun m r => recordSet m r.route_id r.route_short_name) []

/-- First pass over stops: parent stations (`location_type == "1"`). -/
def stationsPass1 (stops : List GtfsStop) : List (String × Station) :=
  stops.foldl (fun m stop =>
    if stop.location_type = "1" then
      recordSet m stop.stop_id
        { n := cleanStationName stop.stop_name, z := "", ids := []
          lat := parseFloatJs stop.stop_lat, lon := parseFloatJs stop.stop_lon }
    else m) []

/-- Second pass: attach platform stops (`location_type == "0"`) to their
parent and derive the zone from the first zoned child. -/
def stationsPass2 (stops : List GtfsStop) (m0 : List (String × Station)) :
    List (String × Station) :=
  stops.foldl (fun m stop =>
    if stop.location_type = "0" ∧ stop.parent_station ≠ "" then
      match recordGet m stop.parent_station with
      | some parent =>
        recordSet m stop.parent_station
          { parent with
              ids := parent.ids ++ [stop.stop_id]
              z := if parent.z = "" ∧ stop.zone_id ≠ "" then stop.zone_id else parent.z }
      | none => m
    else m) m0

/-- Both passes plus removal of childless stations. -/
def buildStationMap (stops : List GtfsStop) : List (String × Station) :=
  (stationsPass2 stops (stationsPass1 stops)).filter (fun pr => pr.2.ids ≠ [])

/-- Reverse lookup stop id → canonical station id. -/
def buildStopToStation (stationMap : List (String × Station)) : List (String × String) :=
  stationMap.foldl (fun m pr => pr.2.ids.foldl (fun m2 sid => recordSet m2 sid pr.1) m) []

/-- One step of the stop-time grouping loop. -/
def groupStep (m : List (String × List GtfsStopTime)) (st2 : GtfsStopTime) :
    List (String × List GtfsStopTime) :=
  match recordGet m st2.trip_id with
  | some arr => recordSet m st2.trip_id (arr ++ [st2])
  | none => m ++ [(st2.trip_id, [st2])]

/-- Group stop-time rows by trip id in first-appearance order. -/
def groupStopTimes (sts : List GtfsStopTime) : List (String × List GtfsStopTime) :=
  sts.foldl groupStep []

/-- Sort key of the stop-time comparator `parseInt(a) - parseInt(b)` (a NaN
key is treated as 0; the fixture data is always numeric). -/
def stopSeqKey (st2 : GtfsStopTime) : Int := (parseIntJs st2.stop_sequence).getD 0

/-- Stable insertion into a sorted list: the new element goes before the
first element whose key is not strictly smaller. -/
def insertByKey (x : GtfsStopTime) : List GtfsStopTime → List GtfsStopTime
  | [] => [x]
  | y :: ys => if stopSeqKey y < stopSeqKey x then y :: insertByKey x ys else x :: y :: ys

/-- Stable sort by `stop_sequence`, equal to the engine's stable
`Array.prototype.sort` under the source's comparator (stable sorts under
one total preorder agree). -/
def sortByStopSequence : List GtfsStopTime → List GtfsStopTime
  | [] => []
  | x :: xs => insertByKey x (sortByStopSequence xs)

/-- Grouped and per-trip sorted stop times. -/
def sortedTripStopTimes (sts : List GtfsStopTime) : List (String × List GtfsStopTime) :=
  (groupStopTimes sts).map (fun pr => (pr.1, sortByStopSequence pr.2))

/-- Per-trip canonical station sequence and interleaved minute array: each
mapped stop contributes one station id and the `[arrival, departure]`
pair; unmapped stops are dropped. -/
def buildSeqStep (stopToStation : List (String × String))
    (acc : List String × List (Option Int)) (st2 : GtfsStopTime) :
    List String × List (Option Int) :=
  match recordGet stopToStation st2.stop_id with
  | some stationId =>
    (acc.1 ++ [stationId],
     acc.2 ++ [timeToMinutes st2.arrival_time, timeToMinutes st2.departure_time])
  | none => acc

def buildSeq (stopToStation : List (String × String)) (times : List GtfsStopTime) :
    List String × List (Option Int) :=
  times.foldl (buildSeqStep stopToStation) ([], [])

/-- Station sequence and minute array for every trip id. -/
def tripData (a : GtfsArchive) : List (String × (List String × List (Option Int))) :=
  (sortedTripStopTimes a.stopTimes).map
    (fun pr => (pr.1, buildSeq (buildStopToStation (buildStationMap a.stops)) pr.2))

/-- The `tripStopSequences` map of the source. -/
def tripSeqsOf (a : GtfsArchive) : List (String × List String) :=
  (tripData a).map (fun pr => (pr.1, pr.2.1))

/-- The `tripTimesMap` of the source. -/
def tripTimesOf (a : GtfsArchive) : List (String × List (Option Int)) :=
  (tripData a).map (fun pr => (pr.1, pr.2.2))

/-! ### Pattern deduplication -/

/-- Little-endian decimal digits, fuel-driven (`fuel = n` suffices). -/
def natDigitsRev : ℕ → ℕ → List ℕ
  | _, 0 => []
  | 0, _ => []
  | fuel + 1, n + 1 => ((n + 1) % 10) :: natDigitsRev fuel ((n + 1) / 10)

/-- Decimal rendering of a natural number (the JS template `p${counter}`
renders the counter this way). -/
def natDecimal (n : ℕ) : String :=
  if n = 0 then "0"
  else String.mk ((natDigitsRev n n).reverse.map (fun d => Char.ofNat (48 + d)))

/-- Pattern id `p0, p1, …`. -/
def pN (k : ℕ) : String := "p" ++ natDecimal k

/-- The signature of a station sequence: `stops.join(',')`. -/
def joinComma (l : List String) : String := String.intercalate "," l

structure DedupState where
  sigs : List (String × String)
  patterns : List (String × List String)
  tripMap : List (String × String)
  counter : ℕ
deriving DecidableEq, Repr

/-- Source: the loop body of `deduplicatePatterns`. -/
def dedupStep (st : DedupState) (entry : String × List String) : DedupState :=
  let sig := joinComma entry.2
  match recordGet st.sigs sig with
  | some pid => { st with tripMap := recordSet st.tripMap entry.1 pid }
  | none =>
    let pid := pN st.counter
    { sigs := recordSet st.sigs sig pid
      patterns := recordSet st.patterns pid entry.2
      tripMap := recordSet st.tripMap entry.1 pid
      counter := st.counter + 1 }

/-- Source: `deduplicatePatterns`. -/
def deduplicatePatterns (tripStops : List (String × List String)) : DedupState :=
  tripStops.foldl dedupStep { sigs := [], patterns := [], tripMap := [], counter := 0 }

/-! ### Remaining stages -/

/-- Source: the trips loop — skip trips without pattern or times. -/
def buildTrips (a : GtfsArchive) (routeMap : List (String × String))
    (dedup : DedupState) (timesMap : List (String × List (Option Int))) : List Trip :=
  a.trips.filterMap (fun t =>
    match recordGet dedup.tripMap t.trip_id, recordGet timesMap t.trip_id with
    | some patternId, some times =>
      some { i := if t.trip_short_name ≠ "" then t.trip_short_name else t.trip_id
             s := t.service_id
             p := patternId
             d := (parseIntJs t.direction_id).getD 0
             st := times
             rt := match recordGet routeMap t.route_id with
                   | some rsn => if rsn ≠ "" then rsn else t.route_id
                   | none => t.route_id }
    | _, _ => none)

def buildCalendar (cal : List GtfsCalendar) : List (String × CalendarEntry) :=
  cal.foldl (fun m c =>
    recordSet m c.service_id
      { days := [parseIntJs c.monday, parseIntJs c.tuesday, parseIntJs c.wednesday,
                 parseIntJs c.thursday, parseIntJs c.friday, parseIntJs c.saturday,
                 parseIntJs c.sunday]
        start := parseIntJs c.start_date
        endDate := parseIntJs c.end_date }) []

def buildCalendarExceptions (cds : List GtfsCalendarDate) :
    List (String × List CalendarException) :=
  cds.foldl (fun m cd =>
    let ex : CalendarException := { date := parseIntJs cd.date, type := parseIntJs cd.exception_type }
    match recordGet m cd.service_id with
    | some arr => recordSet m cd.service_id (arr ++ [ex])
    | none => m ++ [(cd.service_id, [ex])]) []

def buildZones (fzs : List GtfsFarezoneAttribute) : List (String × FareZone) :=
  fzs.foldl (fun m fz => recordSet m fz.zone_id { name := fz.zone_name }) []

def buildFareById (fas : List GtfsFareAttribute) : List (String × JsNum) :=
  fas.foldl (fun m fa => recordSet m fa.fare_id (priceToCents fa.price)) []

def buildFareLookup (frs : List GtfsFareRule) (fareById : List (String × JsNum)) :
    List (String × JsNum) :=
  frs.foldl (fun m fr =>
    if fr.origin_id ≠ "" ∧ fr.destination_id ≠ "" then
      match recordGet fareById fr.fare_id with
      | some price => recordSet m (fr.origin_id ++ "→" ++ fr.destination_id) price
      | none => m
    else m) []

/-- Ordered pairs `(i, j)` with `i < j` of a station list, in loop order. -/
def pairsOf : List String → List (String × String)
  | [] => []
  | s0 :: rest => rest.map (fun x => (s0, x)) ++ pairsOf rest

def buildPairIndex (trips : List Trip) (patterns : List (String × List String)) :
    List (String × List String) :=
  trips.foldl (fun m trip =>
    match recordGet patterns trip.p with
    | none => m
    | some patternStops =>
      (pairsOf patternStops).foldl (fun m2 pr =>
        let key := pr.1 ++ "→" ++ pr.2
        match recordGet m2 key with
        | some arr => recordSet m2 key (arr ++ [trip.i])
        | none => m2 ++ [(key, [trip.i])]) m) []

/-- Model of `createHash('sha256').update(zipBuffer).digest('hex')` from
`node:crypto`: an unspecified but fixed deterministic digest of the bytes.
Only its determinism is relevant to any claim. -/
def sha256Hex (bytes : List ℕ) : String :=
  natDecimal (bytes.foldl (fun a b => (a * 257 + b + 1) % (2 ^ 64)) 0)

/-- Maximum calendar end date (`0` when none; NaN dates never win the
comparison, as in the source). -/
def maxEndDate (cal : List (String × CalendarEntry)) : Int :=
  cal.foldl (fun acc pr =>
    match pr.2.endDate with
    | some e => if e > acc then e else acc
    | none => acc) 0

/-- Source: `parseGtfsZip` — the full builder over the decoded archive.
`now` is the clock value `Math.floor(Date.now() / 1000)` read while
computing the metadata.  The returned object carries `u := now`, no `sv`
and no `o`, exactly as the source's return statement. -/
def parseGtfsZip (a : GtfsArchive) (now : Int) : StaticSchedule :=
  let dedup := deduplicatePatterns (tripSeqsOf a)
  let outputTrips := buildTrips a (buildRouteMap a.routes) dedup (tripTimesOf a)
  let calendarEntries := buildCalendar a.calendar
  { m := { v := sha256Hex a.bytes, e := maxEndDate calendarEntries, sv := none, u := some now }
    p := dedup.patterns
    t := outputTrips
    r := { c := calendarEntries, e := buildCalendarExceptions a.calendarDates }
    s := buildStationMap a.stops
    f := { zones := buildZones a.farezones
           fares := buildFareLookup a.fareRules (buildFareById a.fareAttrs) }
    x := buildPairIndex outputTrips dedup.patterns
    o := none }

/-! ## `scripts/validate-schedule.ts` — `validateSchedule`

The model's `StaticSchedule` always carries an `m` object (the builder
always emits one), so the `!schedule.m` branch of the source is never
taken and is not modelled. -/

def metaErrors (schedule : StaticSchedule) : List String :=
  (if schedule.m.v = "" then ["Missing version hash (m.v)"] else []) ++
  (if schedule.m.e = 0 ∨ schedule.m.e < 20260101 then
    ["Invalid end date (m.e): " ++ toString schedule.m.e] else []) ++
  (match schedule.m.sv with
   | none => ["Missing schema version (m.sv)"]
   | some _ => [])

def volumeErrors (schedule : StaticSchedule) : List String :=
  (if schedule.s.length < 10 then
    ["Too few stations: " ++ toString schedule.s.length ++ " (expected ~31)"] else []) ++
  (if schedule.t.length < 10 then
    ["Too few trips: " ++ toString schedule.t.length ++ " (expected ~70+)"] else []) ++
  (if schedule.p.length < 2 then
    ["Too few patterns: " ++ toString schedule.p.length ++ " (need at least NB/SB)"] else [])

def patternErrors (schedule : StaticSchedule) : List String :=
  schedule.p.foldl (fun errs pr =>
    errs ++ pr.2.filterMap (fun stopId =>
      if (recordGet schedule.s stopId).isSome then none
      else some ("Pattern " ++ pr.1 ++ " references unknown station: " ++ stopId))) []

def tripErrors (schedule : StaticSchedule) : List String :=
  schedule.t.foldl (fun errs trip =>
    let e1 := if (recordGet schedule.p trip.p).isSome then []
      else ["Trip " ++ trip.i ++ " references unknown pattern: " ++ trip.p]
    let e2 := if (recordGet schedule.r.c trip.s).isSome ∨ (recordGet schedule.r.e trip.s).isSome
      then []
      else ["Trip " ++ trip.i ++ " references unknown service: " ++ trip.s]
    let e3 := match recordGet schedule.p trip.p with
      | some pattern =>
        if trip.st.length ≠ pattern.length * 2 then
          ["Trip " ++ trip.i ++ " stop times length (" ++ toString trip.st.length ++
            ") mismatch pattern " ++ trip.p ++ " (" ++ toString (pattern.length * 2) ++ ")"]
        else []
      | none => []
    errs ++ e1 ++ e2 ++ e3) []

def orderedErrors (schedule : StaticSchedule) : List String :=
  match schedule.o with
  | none => ["Missing or empty ordered station list (o)"]
  | some l =>
    if l = [] then ["Missing or empty ordered station list (o)"]
    else l.filterMap (fun id =>
      if (recordGet schedule.s id).isSome then none
      else some ("Ordered list references unknown station: " ++ id))

/-- Source: `validateSchedule` — the error list, in push order. -/
def validateSchedule (schedule : StaticSchedule) : List String :=
  metaErrors schedule ++ volumeErrors schedule ++ patternErrors schedule ++
    tripErrors schedule ++ orderedErrors schedule

/-! ## Support lemmas for the builder claims -/

theorem any_key_iff {α : Type} (m : List (String × α)) (k : String) :
    m.any (fun p => p.1 == k) = true ↔ k ∈ m.map Prod.fst := by
  rw [List.any_eq_true]
  constructor
  · rintro ⟨p, hp, hbeq⟩
    exact List.mem_map.mpr ⟨p, hp, by simpa using hbeq⟩
  · intro hk
    rcases List.mem_map.mp hk with ⟨p, hp, hpe⟩
    exact ⟨p, hp, by simp [hpe]⟩

theorem recordGet_none_iff {α : Type} (m : List (String × α)) (k : String) :
    recordGet m k = none ↔ k ∉ m.map Prod.fst := by
  unfold recordGet
  cases hf : m.find? (fun p => p.1 == k) with
  | some p =>
    have hpm := List.mem_of_find?_eq_some hf
    have hpk : p.1 = k := by simpa using List.find?_some hf
    show some p.2 = none ↔ _
    constructor
    · intro h
      exact absurd h (by simp)
    · intro h
      exact absurd (List.mem_map.mpr ⟨p, hpm, hpk⟩) h
  | none =>
    show (none : Option α) = none ↔ _
    rw [List.find?_eq_none] at hf
    constructor
    · intro _ hk
      rcases List.mem_map.mp hk with ⟨p, hp, hpe⟩
      exact hf p hp (by simp [hpe])
    · intro _
      rfl

theorem recordSet_keys {α : Type} (m : List (String × α)) (k : String) (v : α)
    (h : m.any (fun p => p.1 == k) = true) :
    (recordSet m k v).map Prod.fst = m.map Prod.fst := by
  unfold recordSet
  rw [if_pos h, List.map_map]
  apply List.map_congr_left
  intro p hp
  cases hb : (p.1 == k) with
  | true =>
    have : p.1 = k := by simpa using hb
    simp only [Function.comp_apply, hb]
    exact this.symm
  | false => simp only [Function.comp_apply, hb]

theorem recordSet_absent {α : Type} (m : List (String × α)) (k : String) (v : α)
    (h : ¬ m.any (fun p => p.1 == k) = true) :
    recordSet m k v = m ++ [(k, v)] := by
  unfold recordSet
  rw [if_neg h]

theorem recordGet_map_val {α β : Type} (f : α → β) (m : List (String × α)) (k : String) :
    recordGet (m.map (fun pr => (pr.1, f pr.2))) k = (recordGet m k).map f := by
  induction m with
  | nil => rfl
  | cons p rest ih =>
    unfold recordGet
    rw [List.map_cons, List.find?_cons, List.find?_cons]
    cases hb : (p.1 == k) with
    | true => simp [hb]
    | false =>
      simp only [hb]
      exact ih

theorem mapval_keys {α β : Type} (f : α → β) (m : List (String × α)) :
    (m.map (fun pr => (pr.1, f pr.2))).map Prod.fst = m.map Prod.fst := by
  rw [List.map_map]
  rfl

theorem groupStopTimes_keys_nodup (sts : List GtfsStopTime) :
    ((groupStopTimes sts).map Prod.fst).Nodup := by
  suffices h : ∀ (l : List GtfsStopTime) (m : List (String × List GtfsStopTime)),
      (m.map Prod.fst).Nodup → ((l.foldl groupStep m).map Prod.fst).Nodup by
    exact h sts [] (by simp)
  intro l
  induction l with
  | nil => intro m h; exact h
  | cons st2 rest ih =>
    intro m h
    rw [List.foldl_cons]
    apply ih
    unfold groupStep
    cases hg : recordGet m st2.trip_id with
    | some arr =>
      have hmem : st2.trip_id ∈ m.map Prod.fst :=
        List.mem_map.mpr ⟨(st2.trip_id, arr), recordGet_mem hg, rfl⟩
      rw [recordSet_keys _ _ _ ((any_key_iff m _).mpr hmem)]
      exact h
    | none =>
      rw [List.map_append]
      rw [List.nodup_append]
      refine ⟨h, by simp, ?_⟩
      intro x hx
      simp only [List.map_cons, List.map_nil, List.mem_singleton]
      intro hxe
      subst hxe
      exact (recordGet_none_iff m _).mp hg hx

theorem tripSeqs_keys_nodup (a : GtfsArchive) :
    ((tripSeqsOf a).map Prod.fst).Nodup := by
  have h1 : (tripSeqsOf a).map Prod.fst = (tripData a).map Prod.fst :=
    mapval_keys (fun x : (List String × List (Option Int)) => x.1) (tripData a)
  have h2 : (tripData a).map Prod.fst = (sortedTripStopTimes a.stopTimes).map Prod.fst :=
    mapval_keys (fun l : List GtfsStopTime =>
      buildSeq (buildStopToStation (buildStationMap a.stops)) l)
      (sortedTripStopTimes a.stopTimes)
  have h3 : (sortedTripStopTimes a.stopTimes).map Prod.fst =
      (groupStopTimes a.stopTimes).map Prod.fst :=
    mapval_keys (fun l : List GtfsStopTime => sortByStopSequence l)
      (groupStopTimes a.stopTimes)
  rw [h1, h2, h3]
  exact groupStopTimes_keys_nodup a.stopTimes

theorem buildSeq_len (s2s : List (String × String)) (times : List GtfsStopTime) :
    (buildSeq s2s times).2.length = 2 * (buildSeq s2s times).1.length := by
  suffices h : ∀ (ts : List GtfsStopTime) (acc : List String × List (Option Int)),
      acc.2.length = 2 * acc.1.length →
      (ts.foldl (buildSeqStep s2s) acc).2.length =
        2 * (ts.foldl (buildSeqStep s2s) acc).1.length by
    exact h times ([], []) rfl
  intro ts
  induction ts with
  | nil => intro acc h; exact h
  | cons t2 rest ih =>
    intro acc h
    rw [List.foldl_cons]
    apply ih
    unfold buildSeqStep
    cases recordGet s2s t2.stop_id with
    | some stationId =>
      simp only [List.length_append, List.length_cons, List.length_nil]
      omega
    | none => exact h
/-! ### Decimal rendering is injective -/

/-- The decimal digit character `0`–`9`. -/
def decDigit (d : ℕ) : Char := Char.ofNat (48 + d)

theorem natDigitsRev_lt10 : ∀ (fuel n : ℕ), ∀ d ∈ natDigitsRev fuel n, d < 10 := by
  intro fuel
  induction fuel with
  | zero =>
    intro n d hd
    cases n <;> simp [natDigitsRev] at hd
  | succ f ih =>
    intro n d hd
    cases n with
    | zero => simp [natDigitsRev] at hd
    | succ n =>
      rw [natDigitsRev] at hd
      rcases List.mem_cons.mp hd with h | h
      · rw [h]; exact Nat.mod_lt _ (by omega)
      · exact ih _ d h

/-- Little-endian decimal value. -/
def revVal : List ℕ → ℕ
  | [] => 0
  | d :: rest => d + 10 * revVal rest

theorem natDigitsRev_val : ∀ (fuel n : ℕ), n ≤ fuel → revVal (natDigitsRev fuel n) = n := by
  intro fuel
  induction fuel with
  | zero =>
    intro n h
    have : n = 0 := by omega
    rw [this]
    rfl
  | succ f ih =>
    intro n h
    cases n with
    | zero => rfl
    | succ n =>
      have h1 : (n + 1) / 10 ≤ f := by omega
      rw [natDigitsRev, revVal, ih _ h1]
      omega

theorem decDigit_inj {d e : ℕ} (hd : d < 10) (he : e < 10)
    (h : decDigit d = decDigit e) : d = e := by
  interval_cases d <;> interval_cases e <;> revert h <;> decide

theorem map_decDigit_inj : ∀ (l₁ l₂ : List ℕ), (∀ d ∈ l₁, d < 10) → (∀ d ∈ l₂, d < 10) →
    l₁.map decDigit = l₂.map decDigit → l₁ = l₂ := by
  intro l₁
  induction l₁ with
  | nil =>
    intro l₂ _ _ h
    cases l₂ with
    | nil => rfl
    | cons e rest => simp at h
  | cons d rest ih =>
    intro l₂ h1 h2 h
    cases l₂ with
    | nil => simp at h
    | cons e rest2 =>
      simp only [List.map_cons, List.cons.injEq] at h
      have hde := decDigit_inj (h1 d (by simp)) (h2 e (by simp)) h.1
      have hr := ih rest2 (fun x hx => h1 x (by simp [hx]))
        (fun x hx => h2 x (by simp [hx])) h.2
      rw [hde, hr]

theorem natDecimal_chars (n : ℕ) :
    (natDecimal n).data =
      (if n = 0 then [0] else (natDigitsRev n n).reverse).map decDigit := by
  unfold natDecimal
  by_cases hn : n = 0
  · rw [if_pos hn, if_pos hn]
    rfl
  · rw [if_neg hn, if_neg hn]
    rfl

theorem natDecimal_inj {m n : ℕ} (h : natDecimal m = natDecimal n) : m = n := by
  have hd : ((if m = 0 then [0] else (natDigitsRev m m).reverse).map decDigit) =
      ((if n = 0 then [0] else (natDigitsRev n n).reverse).map decDigit) := by
    rw [← natDecimal_chars, ← natDecimal_chars, h]
  have hb1 : ∀ d ∈ (if m = 0 then [0] else (natDigitsRev m m).reverse), d < 10 := by
    intro d hdm
    by_cases hm : m = 0
    · rw [if_pos hm] at hdm
      simp at hdm
      omega
    · rw [if_neg hm] at hdm
      exact natDigitsRev_lt10 m m d (List.mem_reverse.mp hdm)
  have hb2 : ∀ d ∈ (if n = 0 then [0] else (natDigitsRev n n).reverse), d < 10 := by
    intro d hdm
    by_cases hn : n = 0
    · rw [if_pos hn] at hdm
      simp at hdm
      omega
    · rw [if_neg hn] at hdm
      exact natDigitsRev_lt10 n n d (List.mem_reverse.mp hdm)
  have hlists := map_decDigit_inj _ _ hb1 hb2 hd
  have hval : ∀ (k : ℕ), revVal ((if k = 0 then [0] else (natDigitsRev k k).reverse).reverse) = k := by
    intro k
    by_cases hk : k = 0
    · rw [if_pos hk, hk]
      rfl
    · rw [if_neg hk, List.reverse_reverse]
      exact natDigitsRev_val k k le_rfl
  have := congrArg (fun l => revVal l.reverse) hlists
  simp only [] at this
  rw [hval, hval] at this
  exact this

theorem pN_inj {j k : ℕ} (h : pN j = pN k) : j = k := by
  unfold pN at h
  have hd := congrArg String.data h
  rw [String.data_append, String.data_append] at hd
  have hdl : (natDecimal j).data = (natDecimal k).data := by
    simpa using hd
  exact natDecimal_inj (String.ext hdl)

/-! ### Lookup over a single-entry append -/

theorem recordGet_append_some {α : Type} (m : List (String × α)) (tl : List (String × α))
    (k : String) (v : α) (h : recordGet m k = some v) :
    recordGet (m ++ tl) k = some v := by
  induction m with
  | nil => simp [recordGet, List.find?] at h
  | cons p rest ih =>
    unfold recordGet at h ⊢
    rw [List.cons_append]
    rw [List.find?_cons] at h ⊢
    cases hb : (p.1 == k) with
    | true =>
      simp only [hb] at h ⊢
      exact h
    | false =>
      simp only [hb] at h ⊢
      exact ih h

theorem recordGet_append_none {α : Type} (m : List (String × α)) (k k2 : String) (v : α)
    (h : recordGet m k2 = none) :
    recordGet (m ++ [(k, v)]) k2 = if k2 == k then some v else none := by
  induction m with
  | nil =>
    unfold recordGet
    rw [List.nil_append, List.find?_cons]
    cases hb : (k == k2) with
    | true =>
      have : k2 == k := by
        have : k = k2 := by simpa using hb
        simp [this]
      simp only [this]
      rfl
    | false =>
      have : (k2 == k) = false := by
        have hne : k ≠ k2 := by simpa using hb
        simp [Ne.symm hne]
      simp only [this]
      rfl
  | cons p rest ih =>
    unfold recordGet at h ⊢
    rw [List.cons_append]
    rw [List.find?_cons] at h ⊢
    cases hb : (p.1 == k2) with
    | true =>
      simp only [hb] at h
      exact absurd h (by simp)
    | false =>
      simp only [hb] at h ⊢
      exact ih h

theorem recordGet_some_of_mem_keys {α : Type} {m : List (String × α)} {k : String}
    (h : k ∈ m.map Prod.fst) : ∃ v, recordGet m k = some v := by
  cases hg : recordGet m k with
  | none => exact absurd h ((recordGet_none_iff m k).mp hg)
  | some v => exact ⟨v, rfl⟩

/-! ### Counting by a distinct projection -/

theorem countP_eq_one_of_mapNodup {α : Type} (g : α → String) :
    ∀ (l : List α), ((l.map g).Nodup) → ∀ (c : String),
      (∃ x ∈ l, g x = c) → l.countP (fun x => g x == c) = 1 := by
  intro l
  induction l with
  | nil =>
    intro _ c hex
    rcases hex with ⟨x, hx, _⟩
    exact absurd hx (by simp)
  | cons a rest ih =>
    intro hnd c hex
    rw [List.map_cons, List.nodup_cons] at hnd
    by_cases ha : g a = c
    · rw [List.countP_cons]
      have hz : rest.countP (fun x => g x == c) = 0 := by
        rw [List.countP_eq_zero]
        intro x hx hgx
        have : g x = c := by simpa using hgx
        exact hnd.1 (List.mem_map.mpr ⟨x, hx, this.trans ha.symm⟩)
      rw [hz]
      simp [ha]
    · rw [List.countP_cons]
      have hex2 : ∃ x ∈ rest, g x = c := by
        rcases hex with ⟨x, hx, hgx⟩
        rcases List.mem_cons.mp hx with h | h
        · exact absurd (h ▸ hgx) ha
        · exact ⟨x, h, hgx⟩
      rw [ih hnd.2 c hex2]
      simp [ha]

/-! ### Behaviour of the deduplication fold -/

theorem dedupStep_hit (st : DedupState) (e : String × List String) (pid : String)
    (h : recordGet st.sigs (joinComma e.2) = some pid) :
    dedupStep st e = { st with tripMap := recordSet st.tripMap e.1 pid } := by
  simp only [dedupStep]
  rw [h]

theorem dedupStep_miss (st : DedupState) (e : String × List String)
    (h : recordGet st.sigs (joinComma e.2) = none) :
    dedupStep st e =
      { sigs := recordSet st.sigs (joinComma e.2) (pN st.counter)
        patterns := recordSet st.patterns (pN st.counter) e.2
        tripMap := recordSet st.tripMap e.1 (pN st.counter)
        counter := st.counter + 1 } := by
  simp only [dedupStep]
  rw [h]

/-- Once a signature is present in `sigs` it never changes: later steps set
`sigs` only at signatures that were absent. -/
theorem dedup_sigs_mono : ∀ (l : List (String × List String)) (st : DedupState)
    (sig pid : String), recordGet st.sigs sig = some pid →
    recordGet (l.foldl dedupStep st).sigs sig = some pid := by
  intro l
  induction l with
  | nil => intro st sig pid h; exact h
  | cons e rest ih =>
    intro st sig pid h
    rw [List.foldl_cons]
    apply ih
    cases hsig : recordGet st.sigs (joinComma e.2) with
    | some pid0 =>
      rw [dedupStep_hit st e pid0 hsig]
      exact h
    | none =>
      rw [dedupStep_miss st e hsig]
      have hne : sig ≠ joinComma e.2 := by
        intro hcon
        rw [hcon, hsig] at h
        exact absurd h (by simp)
      show recordGet (recordSet st.sigs (joinComma e.2) (pN st.counter)) sig = some pid
      rw [recordGet_recordSet_ne _ _ _ _ hne]
      exact h

/-- The trip map at a key outside the remaining input is frozen. -/
theorem dedup_tripMap_frozen : ∀ (l : List (String × List String)) (st : DedupState)
    (tid : String), tid ∉ l.map Prod.fst →
    recordGet (l.foldl dedupStep st).tripMap tid = recordGet st.tripMap tid := by
  intro l
  induction l with
  | nil => intro st tid _; rfl
  | cons e rest ih =>
    intro st tid htid
    rw [List.map_cons] at htid
    have h1 : tid ≠ e.1 := fun hcon => htid (by simp [hcon])
    have h2 : tid ∉ rest.map Prod.fst := fun hcon => htid (by simp [hcon])
    rw [List.foldl_cons, ih _ _ h2]
    cases hsig : recordGet st.sigs (joinComma e.2) with
    | some pid0 =>
      rw [dedupStep_hit st e pid0 hsig]
      exact recordGet_recordSet_ne _ _ _ _ h1
    | none =>
      rw [dedupStep_miss st e hsig]
      exact recordGet_recordSet_ne _ _ _ _ h1

/-- The invariant maintained by the deduplication loop: every recorded
signature points at a pattern entry whose join is that signature and whose
stops come from the input values `V`; every pattern entry is reachable from
its own join; pattern ids ahead of the counter are unused; and the joins of
the pattern entries are pairwise distinct. -/
def DedupInv (V : List (List String)) (st : DedupState) : Prop :=
  (∀ sig pid, recordGet st.sigs sig = some pid →
     ∃ stops, recordGet st.patterns pid = some stops ∧
       joinComma stops = sig ∧ stops ∈ V) ∧
  (∀ pid stops, (pid, stops) ∈ st.patterns →
     recordGet st.sigs (joinComma stops) = some pid) ∧
  (∀ j, st.counter ≤ j → pN j ∉ st.patterns.map Prod.fst) ∧
  (st.patterns.map (fun pr => joinComma pr.2)).Nodup

theorem dedupStep_inv (V : List (List String)) (st : DedupState)
    (e : String × List String) (hv : e.2 ∈ V) (h : DedupInv V st) :
    DedupInv V (dedupStep st e) := by
  cases hsig : recordGet st.sigs (joinComma e.2) with
  | some pid0 =>
    rw [dedupStep_hit st e pid0 hsig]
    exact h
  | none =>
    rw [dedupStep_miss st e hsig]
    have hsig_absent : joinComma e.2 ∉ st.sigs.map Prod.fst :=
      (recordGet_none_iff _ _).mp hsig
    have hpat_absent : pN st.counter ∉ st.patterns.map Prod.fst :=
      h.2.2.1 st.counter le_rfl
    have hsigs_eq : recordSet st.sigs (joinComma e.2) (pN st.counter) =
        st.sigs ++ [(joinComma e.2, pN st.counter)] :=
      recordSet_absent _ _ _ (fun ha => hsig_absent ((any_key_iff _ _).mp ha))
    have hpats_eq : recordSet st.patterns (pN st.counter) e.2 =
        st.patterns ++ [(pN st.counter, e.2)] :=
      recordSet_absent _ _ _ (fun ha => hpat_absent ((any_key_iff _ _).mp ha))
    have hpatget_none : recordGet st.patterns (pN st.counter) = none :=
      (recordGet_none_iff _ _).mpr hpat_absent
    refine ⟨?_, ?_, ?_, ?_⟩
    · intro sig2 pid2 hlook
      show ∃ stops, recordGet (recordSet st.patterns (pN st.counter) e.2) pid2 =
        some stops ∧ joinComma stops = sig2 ∧ stops ∈ V
      rw [hpats_eq]
      rw [show ({ sigs := recordSet st.sigs (joinComma e.2) (pN st.counter)
                  patterns := recordSet st.patterns (pN st.counter) e.2
                  tripMap := recordSet st.tripMap e.1 (pN st.counter)
                  counter := st.counter + 1 } : DedupState).sigs =
          recordSet st.sigs (joinComma e.2) (pN st.counter) from rfl, hsigs_eq] at hlook
      cases hold : recordGet st.sigs sig2 with
      | some pid0 =>
        rw [recordGet_append_some _ _ _ _ hold] at hlook
        obtain ⟨stops, hp, hj, hmem⟩ := h.1 sig2 pid0 hold
        refine ⟨stops, ?_, hj, hmem⟩
        have hpe : pid0 = pid2 := (Option.some.injEq _ _).mp hlook
        rw [← hpe]
        exact recordGet_append_some _ _ _ _ hp
      | none =>
        rw [recordGet_append_none _ _ _ _ hold] at hlook
        by_cases hk : sig2 = joinComma e.2
        · have hb : (sig2 == joinComma e.2) = true := by simp [hk]
          rw [hb] at hlook
          simp only [if_true] at hlook
          have hpid : pid2 = pN st.counter :=
            ((Option.some.injEq _ _).mp hlook).symm
          refine ⟨e.2, ?_, hk.symm, hv⟩
          rw [hpid, recordGet_append_none _ _ _ _ hpatget_none]
          simp
        · have hb : (sig2 == joinComma e.2) = false := by simp [hk]
          rw [hb] at hlook
          exact absurd hlook (by simp)
    · intro pid2 stops2 hmem
      show recordGet (recordSet st.sigs (joinComma e.2) (pN st.counter))
        (joinComma stops2) = some pid2
      rw [hsigs_eq]
      rw [show ({ sigs := recordSet st.sigs (joinComma e.2) (pN st.counter)
                  patterns := recordSet st.patterns (pN st.counter) e.2
                  tripMap := recordSet st.tripMap e.1 (pN st.counter)
                  counter := st.counter + 1 } : DedupState).patterns =
          recordSet st.patterns (pN st.counter) e.2 from rfl, hpats_eq] at hmem
      rcases List.mem_append.mp hmem with hm | hm
      · exact recordGet_append_some _ _ _ _ (h.2.1 pid2 stops2 hm)
      · have hpr : pid2 = pN st.counter ∧ stops2 = e.2 := by
          have := List.mem_singleton.mp hm
          exact ⟨congrArg Prod.fst this, congrArg Prod.snd this⟩
        rw [hpr.1, hpr.2, recordGet_append_none _ _ _ _ hsig]
        simp
    · intro j hj hmem
      rw [show ({ sigs := recordSet st.sigs (joinComma e.2) (pN st.counter)
                  patterns := recordSet st.patterns (pN st.counter) e.2
                  tripMap := recordSet st.tripMap e.1 (pN st.counter)
                  counter := st.counter + 1 } : DedupState).patterns =
          recordSet st.patterns (pN st.counter) e.2 from rfl, hpats_eq,
          List.map_append] at hmem
      rcases List.mem_append.mp hmem with hm | hm
      · have hj2 : st.counter ≤ j := by
          have : st.counter + 1 ≤ j := hj
          omega
        exact h.2.2.1 j hj2 hm
      · have hpn : pN j = pN st.counter := by simpa using hm
        have := pN_inj hpn
        have hj2 : st.counter + 1 ≤ j := hj
        omega
    · show ((recordSet st.patterns (pN st.counter) e.2).map
        (fun pr => joinComma pr.2)).Nodup
      rw [hpats_eq, List.map_append]
      rw [List.nodup_append]
      refine ⟨h.2.2.2, by simp, ?_⟩
      intro x hx
      simp only [List.map_cons, List.map_nil, List.mem_singleton]
      intro hxe
      rcases List.mem_map.mp hx with ⟨pr, hpr, hprx⟩
      have := h.2.1 pr.1 pr.2 hpr
      rw [hprx, hxe, hsig] at this
      exact absurd this (by simp)

theorem dedup_fold_inv (V : List (List String)) :
    ∀ (l : List (String × List String)) (st : DedupState),
    (∀ e ∈ l, e.2 ∈ V) → DedupInv V st → DedupInv V (l.foldl dedupStep st) := by
  intro l
  induction l with
  | nil => intro st _ h; exact h
  | cons e rest ih =>
    intro st hv h
    rw [List.foldl_cons]
    exact ih _ (fun x hx => hv x (by simp [hx]))
      (dedupStep_inv V st e (hv e (by simp)) h)

/-- Characterization of the fold on an input with distinct keys: every
input entry ends with its trip mapped to the pattern id stored in `sigs`
under the entry's joined signature. -/
theorem dedup_lookup_char : ∀ (l : List (String × List String)) (st : DedupState),
    ((l.map Prod.fst).Nodup) → ∀ (tid : String) (seq : List String),
    recordGet l tid = some seq →
    ∃ pid, recordGet (l.foldl dedupStep st).sigs (joinComma seq) = some pid ∧
      recordGet (l.foldl dedupStep st).tripMap tid = some pid := by
  intro l
  induction l with
  | nil =>
    intro st _ tid seq h
    exact absurd h (by simp [recordGet, List.find?])
  | cons e rest ih =>
    intro st hnd tid seq h
    rw [List.map_cons, List.nodup_cons] at hnd
    rw [List.foldl_cons]
    unfold recordGet at h
    rw [List.find?_cons] at h
    cases hb : (e.1 == tid) with
    | true =>
      simp only [hb] at h
      have hseq : seq = e.2 := by
        have hss : some e.2 = some seq := h
        exact ((Option.some.injEq _ _).mp hss).symm
      have htid : e.1 = tid := by simpa using hb
      have hnot : tid ∉ rest.map Prod.fst := htid ▸ hnd.1
      cases hsig : recordGet st.sigs (joinComma e.2) with
      | some pid0 =>
        refine ⟨pid0, ?_, ?_⟩
        · apply dedup_sigs_mono
          rw [dedupStep_hit st e pid0 hsig, hseq]
          exact hsig
        · rw [dedup_tripMap_frozen rest _ tid hnot, dedupStep_hit st e pid0 hsig]
          show recordGet (recordSet st.tripMap e.1 pid0) tid = some pid0
          rw [← htid]
          exact recordGet_recordSet_self _ _ _
      | none =>
        refine ⟨pN st.counter, ?_, ?_⟩
        · apply dedup_sigs_mono
          rw [dedupStep_miss st e hsig, hseq]
          show recordGet (recordSet st.sigs (joinComma e.2) (pN st.counter))
            (joinComma e.2) = some (pN st.counter)
          exact recordGet_recordSet_self _ _ _
        · rw [dedup_tripMap_frozen rest _ tid hnot, dedupStep_miss st e hsig]
          show recordGet (recordSet st.tripMap e.1 (pN st.counter)) tid =
            some (pN st.counter)
          rw [← htid]
          exact recordGet_recordSet_self _ _ _
    | false =>
      simp only [hb] at h
      exact ih (dedupStep st e) hnd.2 tid seq h

/-- The empty state satisfies the invariant. -/
theorem dedupInv_init (V : List (List String)) :
    DedupInv V { sigs := [], patterns := [], tripMap := [], counter := 0 } := by
  refine ⟨?_, ?_, ?_, ?_⟩
  · intro sig pid h
    exact absurd h (by simp [recordGet, List.find?])
  · intro pid stops h
    exact absurd h (by simp)
  · intro j _ h
    exact absurd h (by simp)
  · simp

/-- Full per-trip characterization of `deduplicatePatterns` on inputs with
distinct trip ids: each trip is mapped to a pattern id whose stored stop
list has the same joined signature and comes from the input values. -/
theorem dedup_char (l : List (String × List String))
    (hnd : (l.map Prod.fst).Nodup) (tid : String) (seq : List String)
    (h : recordGet l tid = some seq) :
    ∃ pid stops, recordGet (deduplicatePatterns l).tripMap tid = some pid ∧
      recordGet (deduplicatePatterns l).patterns pid = some stops ∧
      joinComma stops = joinComma seq ∧ stops ∈ l.map Prod.snd := by
  obtain ⟨pid, hs, ht⟩ := dedup_lookup_char l
    { sigs := [], patterns := [], tripMap := [], counter := 0 } hnd tid seq h
  have hinv := dedup_fold_inv (l.map Prod.snd) l
    { sigs := [], patterns := [], tripMap := [], counter := 0 }
    (fun e he => List.mem_map.mpr ⟨e, he, rfl⟩) (dedupInv_init _)
  obtain ⟨stops, hp, hj, hmem⟩ := hinv.1 _ pid hs
  exact ⟨pid, stops, ht, hp, hj, hmem⟩

/-- Two input trips with the same joined signature receive the same
pattern id. -/
theorem dedup_same_pid (l : List (String × List String))
    (hnd : (l.map Prod.fst).Nodup) (tid₁ seq₁ tid₂ seq₂ : _)
    (h1 : recordGet l tid₁ = some seq₁) (h2 : recordGet l tid₂ = some seq₂)
    (hj : joinComma seq₁ = joinComma seq₂) :
    recordGet (deduplicatePatterns l).tripMap tid₁ =
      recordGet (deduplicatePatterns l).tripMap tid₂ := by
  obtain ⟨p1, hs1, ht1⟩ := dedup_lookup_char l
    { sigs := [], patterns := [], tripMap := [], counter := 0 } hnd tid₁ seq₁ h1
  obtain ⟨p2, hs2, ht2⟩ := dedup_lookup_char l
    { sigs := [], patterns := [], tripMap := [], counter := 0 } hnd tid₂ seq₂ h2
  rw [hj] at hs1
  have hp : p1 = p2 := by
    have hss := hs1.symm.trans hs2
    exact (Option.some.injEq _ _).mp hss
  rw [hp] at ht1
  unfold deduplicatePatterns
  rw [ht1, ht2]

/-- The pattern map holds exactly one entry whose joined signature matches
a given input trip's signature. -/
theorem dedup_pattern_count (l : List (String × List String))
    (hnd : (l.map Prod.fst).Nodup) (tid : String) (seq : List String)
    (h : recordGet l tid = some seq) :
    (deduplicatePatterns l).patterns.countP
      (fun pr => joinComma pr.2 == joinComma seq) = 1 := by
  obtain ⟨pid, hs, _⟩ := dedup_lookup_char l
    { sigs := [], patterns := [], tripMap := [], counter := 0 } hnd tid seq h
  have hinv := dedup_fold_inv (l.map Prod.snd) l
    { sigs := [], patterns := [], tripMap := [], counter := 0 }
    (fun e he => List.mem_map.mpr ⟨e, he, rfl⟩) (dedupInv_init _)
  obtain ⟨stops, hp, hj, _⟩ := hinv.1 _ pid hs
  exact countP_eq_one_of_mapNodup (fun pr => joinComma pr.2) _ hinv.2.2.2
    (joinComma seq) ⟨(pid, stops), recordGet_mem hp, hj⟩

/-! ## Claims C2–C5 -/

/-- C2 (amended): the interleaved stop-times array of every output trip has
exactly twice the length of the station sequence stored under the trip's
pattern id, provided the comma-join of station sequences is injective on
the archive's per-trip sequences (station ids containing commas can collide
two distinct sequences into one signature, breaking the invariant). -/
theorem c2_stoptimes_length (a : GtfsArchive) (now : Int)
    (hinj : ∀ s₁ ∈ (tripSeqsOf a).map Prod.snd, ∀ s₂ ∈ (tripSeqsOf a).map Prod.snd,
      joinComma s₁ = joinComma s₂ → s₁ = s₂) :
    ∀ tr ∈ (parseGtfsZip a now).t, ∃ stops,
      recordGet (parseGtfsZip a now).p tr.p = some stops ∧
      tr.st.length = 2 * stops.length := by
  intro tr htr
  have hT : (parseGtfsZip a now).t =
      buildTrips a (buildRouteMap a.routes) (deduplicatePatterns (tripSeqsOf a))
        (tripTimesOf a) := rfl
  have hP : (parseGtfsZip a now).p =
      (deduplicatePatterns (tripSeqsOf a)).patterns := rfl
  rw [hT] at htr
  rw [hP]
  unfold buildTrips at htr
  rcases List.mem_filterMap.mp htr with ⟨row, hrow, hmk⟩
  cases hA : recordGet (deduplicatePatterns (tripSeqsOf a)).tripMap row.trip_id with
  | none =>
    simp only [hA] at hmk
    exact absurd hmk (by simp)
  | some patternId =>
    cases hB : recordGet (tripTimesOf a) row.trip_id with
    | none =>
      simp only [hA, hB] at hmk
      exact absurd hmk (by simp)
    | some times =>
      simp only [hA, hB] at hmk
      have htr2 : _ = tr := (Option.some.injEq _ _).mp hmk
      subst htr2
      show ∃ stops,
        recordGet (deduplicatePatterns (tripSeqsOf a)).patterns patternId =
          some stops ∧ times.length = 2 * stops.length
      have hkey : row.trip_id ∈ (tripSeqsOf a).map Prod.fst := by
        by_contra hcon
        have hfr := dedup_tripMap_frozen (tripSeqsOf a)
          { sigs := [], patterns := [], tripMap := [], counter := 0 }
          row.trip_id hcon
        unfold deduplicatePatterns at hA
        rw [hfr] at hA
        exact absurd hA (by simp [recordGet, List.find?])
      obtain ⟨seq, hseq⟩ := recordGet_some_of_mem_keys hkey
      obtain ⟨pid, stops, ht, hp, hj, hmem⟩ :=
        dedup_char (tripSeqsOf a) (tripSeqs_keys_nodup a) row.trip_id seq hseq
      have hpid : pid = patternId := by
        rw [hA] at ht
        exact ((Option.some.injEq _ _).mp ht).symm
      have hseqmem : seq ∈ (tripSeqsOf a).map Prod.snd :=
        List.mem_map.mpr ⟨(row.trip_id, seq), recordGet_mem hseq, rfl⟩
      have hstops_eq : stops = seq := hinj stops hmem seq hseqmem hj
      have hBmap : recordGet (tripTimesOf a) row.trip_id =
          (recordGet (tripData a) row.trip_id).map (fun pr => pr.2) :=
        recordGet_map_val _ _ _
      have hSmap : recordGet (tripSeqsOf a) row.trip_id =
          (recordGet (tripData a) row.trip_id).map (fun pr => pr.1) :=
        recordGet_map_val _ _ _
      cases hD : recordGet (tripData a) row.trip_id with
      | none =>
        rw [hD] at hSmap
        rw [hSmap] at hseq
        exact absurd hseq (by simp)
      | some pr =>
        rw [hD] at hBmap hSmap
        have hpr1 : pr.1 = seq := by
          rw [hSmap] at hseq
          simpa using hseq
        have hpr2 : pr.2 = times := by
          rw [hBmap] at hB
          simpa using hB
        have hprmem := recordGet_mem hD
        unfold tripData at hprmem
        rcases List.mem_map.mp hprmem with ⟨g, hg, hge⟩
        have hpr_val : pr =
            buildSeq (buildStopToStation (buildStationMap a.stops)) g.2 :=
          (congrArg Prod.snd hge).symm
        have hlen := buildSeq_len (buildStopToStation (buildStationMap a.stops)) g.2
        rw [← hpr_val] at hlen
        refine ⟨stops, ?_, ?_⟩
        · rw [← hpid]
          exact hp
        · rw [← hpr2, hlen, hpr1, ← hstops_eq]

def mkStop (id name zone lt parent : String) : GtfsStop :=
  { stop_id := id, stop_name := name, zone_id := zone, location_type := lt,
    parent_station := parent, stop_lat := "0", stop_lon := "0" }

/-- An archive whose parent-station id `a,b` contains a comma, so that the
one-station sequence `["a,b"]` and the two-station sequence `["a", "b"]`
join to the same signature. -/
def commaArch : GtfsArchive :=
  { bytes := []
    stops := [ mkStop "a,b" "AB" "Z1" "1" "", mkStop "c1" "ABP" "Z1" "0" "a,b",
               mkStop "a" "A" "Z1" "1" "", mkStop "c2" "AP" "Z1" "0" "a",
               mkStop "b" "B" "Z2" "1" "", mkStop "c3" "BP" "Z2" "0" "b" ]
    routes := [ { route_id := "L", route_short_name := "Local" } ]
    trips := [ { route_id := "L", service_id := "svc1", trip_id := "trip1",
                 direction_id := "0", trip_short_name := "101" },
               { route_id := "L", service_id := "svc1", trip_id := "trip2",
                 direction_id := "0", trip_short_name := "102" },
               { route_id := "L", service_id := "svc1", trip_id := "trip3",
                 direction_id := "0", trip_short_name := "103" } ]
    stopTimes := [ { trip_id := "trip1", arrival_time := "8:00:00",
                     departure_time := "8:00:00", stop_id := "c1", stop_sequence := "1" },
                   { trip_id := "trip2", arrival_time := "9:00:00",
                     departure_time := "9:00:00", stop_id := "c2", stop_sequence := "1" },
                   { trip_id := "trip2", arrival_time := "9:30:00",
                     departure_time := "9:30:00", stop_id := "c3", stop_sequence := "2" },
                   { trip_id := "trip3", arrival_time := "10:00:00",
                     departure_time := "10:00:00", stop_id := "c2", stop_sequence := "1" },
                   { trip_id := "trip3", arrival_time := "10:30:00",
                     departure_time := "10:30:00", stop_id := "c3", stop_sequence := "2" } ]
    calendar := [], calendarDates := [], fareAttrs := [], fareRules := [], farezones := [] }

/-- C2 counterexample: in `commaArch` the comma-bearing station id `a,b`
collides the signatures, and trips 102/103 end with 4 stop-time slots
against a stored pattern of one station. -/
theorem c2_counterexample :
    ∃ tr ∈ (parseGtfsZip commaArch 0).t,
      recordGet (parseGtfsZip commaArch 0).p tr.p = some ["a,b"] ∧
      tr.st.length ≠ 2 * (["a,b"] : List String).length := by
  decide

/-- A one-trip archive with plain station ids. -/
def archW : GtfsArchive :=
  { bytes := []
    stops := [ mkStop "a" "A" "Z1" "1" "", mkStop "c2" "AP" "Z1" "0" "a",
               mkStop "b" "B" "Z2" "1" "", mkStop "c3" "BP" "Z2" "0" "b" ]
    routes := [ { route_id := "L", route_short_name := "Local" } ]
    trips := [ { route_id := "L", service_id := "svc1", trip_id := "trip2",
                 direction_id := "0", trip_short_name := "102" } ]
    stopTimes := [ { trip_id := "trip2", arrival_time := "9:00:00",
                     departure_time := "9:00:00", stop_id := "c2", stop_sequence := "1" },
                   { trip_id := "trip2", arrival_time := "9:30:00",
                     departure_time := "9:30:00", stop_id := "c3", stop_sequence := "2" } ]
    calendar := [], calendarDates := [], fareAttrs := [], fareRules := [], farezones := [] }

/-- The single output trip of `archW`. -/
def trW : Trip :=
  { i := "102", s := "svc1", p := "p0", d := 0,
    st := [some 540, some 540, some 570, some 570], rt := "Local" }

theorem c2_stoptimes_length_witness :
    (∀ s₁ ∈ (tripSeqsOf archW).map Prod.snd, ∀ s₂ ∈ (tripSeqsOf archW).map Prod.snd,
      joinComma s₁ = joinComma s₂ → s₁ = s₂) ∧
    (∃ stops, recordGet (parseGtfsZip archW 0).p trW.p = some stops ∧
      trW.st.length = 2 * stops.length) :=
  ⟨by decide, c2_stoptimes_length archW 0 (by decide) trW (by decide)⟩

/-- C5 (amended): any two trips whose station sequences have the same
comma-join — in particular any two with identical sequences — receive the
same pattern id, and the pattern map holds exactly one entry whose join
equals that signature; but under a comma collision that single entry's
stored sequence can differ from the trip's sequence, so the map may hold
zero entries equal to the sequence itself. -/
theorem c5_pattern_dedup (a : GtfsArchive) (now : Int) :
    (∀ (tid₁ seq₁ tid₂ seq₂ : _),
        recordGet (tripSeqsOf a) tid₁ = some seq₁ →
        recordGet (tripSeqsOf a) tid₂ = some seq₂ →
        joinComma seq₁ = joinComma seq₂ →
        recordGet (deduplicatePatterns (tripSeqsOf a)).tripMap tid₁ =
          recordGet (deduplicatePatterns (tripSeqsOf a)).tripMap tid₂) ∧
    (∀ (tid : String) (seq : List String),
        recordGet (tripSeqsOf a) tid = some seq →
        (parseGtfsZip a now).p.countP
          (fun pr => joinComma pr.2 == joinComma seq) = 1) := by
  constructor
  · intro tid₁ seq₁ tid₂ seq₂ h1 h2 hj
    exact dedup_same_pid _ (tripSeqs_keys_nodup a) tid₁ seq₁ tid₂ seq₂ h1 h2 hj
  · intro tid seq h
    have hP : (parseGtfsZip a now).p =
        (deduplicatePatterns (tripSeqsOf a)).patterns := rfl
    rw [hP]
    exact dedup_pattern_count _ (tripSeqs_keys_nodup a) tid seq h

/-- C5 counterexample: trip 102 of `commaArch` has station sequence
`["a", "b"]`, yet the pattern map holds no entry with that sequence — the
sole matching-signature entry stores `["a,b"]` instead. -/
theorem c5_counterexample :
    recordGet (tripSeqsOf commaArch) "trip2" = some ["a", "b"] ∧
    (parseGtfsZip commaArch 0).p.countP (fun pr => pr.2 == ["a", "b"]) = 0 := by
  decide

theorem c5_pattern_dedup_witness :
    recordGet (deduplicatePatterns (tripSeqsOf commaArch)).tripMap "trip2" =
      recordGet (deduplicatePatterns (tripSeqsOf commaArch)).tripMap "trip3" ∧
    (parseGtfsZip commaArch 0).p.countP
      (fun pr => joinComma pr.2 == joinComma ["a", "b"]) = 1 :=
  ⟨(c5_pattern_dedup commaArch 0).1 "trip2" ["a", "b"] "trip3" ["a", "b"]
      (by decide) (by decide) rfl,
   (c5_pattern_dedup commaArch 0).2 "trip2" ["a", "b"] (by decide)⟩

/-- The archive with no tables. -/
def emptyArchive : GtfsArchive :=
  { bytes := [], stops := [], routes := [], trips := [], stopTimes := [],
    calendar := [], calendarDates := [], fareAttrs := [], fareRules := [],
    farezones := [] }

/-- C3: the builder is deterministic in everything except the embedded
build clock — every component other than `m.u` is independent of the clock
and the version hash depends only on the bytes — but `m.u` stores the
clock, so two runs over the same archive at different times produce
different (hence not byte-identical) outputs. -/
theorem c3_build_not_idempotent :
    (∀ (a : GtfsArchive) (n n2 : Int),
       (parseGtfsZip a n).m.v = (parseGtfsZip a n2).m.v ∧
       (parseGtfsZip a n).m.e = (parseGtfsZip a n2).m.e ∧
       (parseGtfsZip a n).m.sv = (parseGtfsZip a n2).m.sv ∧
       (parseGtfsZip a n).p = (parseGtfsZip a n2).p ∧
       (parseGtfsZip a n).t = (parseGtfsZip a n2).t ∧
       (parseGtfsZip a n).r = (parseGtfsZip a n2).r ∧
       (parseGtfsZip a n).s = (parseGtfsZip a n2).s ∧
       (parseGtfsZip a n).f = (parseGtfsZip a n2).f ∧
       (parseGtfsZip a n).x = (parseGtfsZip a n2).x ∧
       (parseGtfsZip a n).o = (parseGtfsZip a n2).o) ∧
    (∀ (a : GtfsArchive) (n : Int), (parseGtfsZip a n).m.u = some n) ∧
    parseGtfsZip emptyArchive 1 ≠ parseGtfsZip emptyArchive 2 := by
  refine ⟨?_, ?_, ?_⟩
  · intro a n n2
    exact ⟨rfl, rfl, rfl, rfl, rfl, rfl, rfl, rfl, rfl, rfl⟩
  · intro a n
    rfl
  · decide

/-- C4: the metadata block carries the digest of the bytes and the maximum
calendar end date but no schema version at all (`sv` is absent and the
upload clock `u` is stored instead), so the validator reports the missing
schema version on every archive. -/
theorem c4_metadata_missing_sv (a : GtfsArchive) (now : Int) :
    (parseGtfsZip a now).m =
      { v := sha256Hex a.bytes, e := maxEndDate (buildCalendar a.calendar),
        sv := none, u := some now } ∧
    "Missing schema version (m.sv)" ∈ validateSchedule (parseGtfsZip a now) := by
  constructor
  · rfl
  · have hsv : (parseGtfsZip a now).m.sv = none := rfl
    unfold validateSchedule metaErrors
    rw [hsv]
    simp

end CaltrainLite
